import Mathlib

/-!
Verification of the smoqe query compiler (src/smoqe/query.py) against its
specification.  The Python source is shallowly embedded below: pure helper
functions become Lean functions over `List Char` / `String`, Python numbers
become `Int`/`ℚ` (decimal float literals are modelled exactly as rationals;
IEEE special names such as inf/nan are outside the rational model), and every
code path that can raise becomes an `Except PyErr` computation whose error
constructor records the Python exception class that the source raises.
-/

set_option maxHeartbeats 1000000

namespace Smoqe

/-! ### Character classes (ASCII, as used by the source regular expressions) -/

def isPySpace (c : Char) : Bool :=
  c == ' ' || c == '\t' || c == '\n' || c == '\r' || c == '\x0b' || c == '\x0c'

def isFieldChar (c : Char) : Bool :=
  c.isAlpha || c.isDigit || c == '_' || c == '.'

def isNameStart (c : Char) : Bool :=
  c.isAlpha || c == '_'

def isParenChar (c : Char) : Bool :=
  c == '(' || c == ')'

def pyCharLower (c : Char) : Char :=
  if 'A' ≤ c && c ≤ 'Z' then Char.ofNat (c.toNat + 32) else c

def pyLower (s : String) : String :=
  String.mk (s.data.map pyCharLower)

/-! ### Python string helpers: strip, split, substring test, join -/

/-- Python `str.strip(chars)`: drop characters satisfying `p` from both ends. -/
def stripEnds (p : Char → Bool) (cs : List Char) : List Char :=
  ((cs.dropWhile p).reverse.dropWhile p).reverse

/-- The `unpar` lambda of `to_mongo`: `s.strip().strip('()')`. -/
def unpar (s : String) : String :=
  String.mk (stripEnds isParenChar (stripEnds isPySpace s.data))

/-- Python `str.split(sep)` worker (leftmost, non-overlapping); the fuel is the
length of the scanned list, so the zero-fuel branch is never reached for the
nonempty separators used by the source. -/
def pySplitGo (sep : List Char) : Nat → List Char → List Char → List (List Char)
  | _, [], acc => [acc.reverse]
  | 0, cs, acc => [acc.reverse ++ cs]
  | fuel + 1, c :: rest, acc =>
    if sep.isPrefixOf (c :: rest) then
      acc.reverse :: pySplitGo sep fuel ((c :: rest).drop sep.length) []
    else
      pySplitGo sep fuel rest (c :: acc)

def pySplit (s : String) (sep : String) : List String :=
  (pySplitGo sep.data s.data.length s.data []).map String.mk

/-- Python `sep in s` (substring membership) for a nonempty separator. -/
def containsSeq (sep : List Char) : List Char → Bool
  | [] => false
  | c :: rest => sep.isPrefixOf (c :: rest) || containsSeq sep rest

def containsTok (s : String) (sep : String) : Bool :=
  containsSeq sep.data s.data

def pyStartsWith (s pre : String) : Bool :=
  pre.data.isPrefixOf s.data

/-- Python `sep.join(parts)`. -/
def joinSep (sep : String) : List String → String
  | [] => ""
  | [x] => x
  | x :: y :: rest => x ++ sep ++ joinSep sep (y :: rest)

/-! ### Python exception classes raised by the source, and runtime values -/

inductive PyErr where
  | badExpression (expr : String) (details : String)
  | valueError (msg : String)
  | attributeError (msg : String)
  | runtimeError (msg : String)
  | assertionError
deriving DecidableEq, Repr

/-- An exact decimal `man / 10 ^ exp`, the model of a Python float built from
a decimal literal (the grammar only produces decimal literals; binary
floating-point rounding and the special values inf/nan are outside this
model).  The parser below always produces the canonical form whose fraction
has no trailing zeros, so structural equality of parsed values coincides
with numeric equality. -/
structure Dec where
  man : Int
  exp : Nat
deriving DecidableEq, Repr

def pow10 (k : Nat) : Int := ((10 ^ k : Nat) : Int)

/-- Numeric equality of decimals (by cross-multiplication). -/
def Dec.beqN (a b : Dec) : Bool := a.man * pow10 b.exp == b.man * pow10 a.exp

/-- Numeric `≤` on decimals. -/
def Dec.bleN (a b : Dec) : Bool := decide (a.man * pow10 b.exp ≤ b.man * pow10 a.exp)

/-- Numeric `<` on decimals. -/
def Dec.bltN (a b : Dec) : Bool := decide (a.man * pow10 b.exp < b.man * pow10 a.exp)

def Dec.ofInt (n : Int) : Dec := ⟨n, 0⟩

def Dec.ofNat (n : Nat) : Dec := ⟨(n : Int), 0⟩

/-- A value produced by the literal coercion in `parse_expr`. -/
inductive PyVal where
  | int (n : Int)
  | float (d : Dec)
  | bool (b : Bool)
  | str (s : String)
deriving DecidableEq, Repr

/-! ### The `relation_re` matcher

The source pattern is
`\s* FIELD \s* OP \s* VALUE \s*` with
`FIELD = [a-zA-Z_.0-9]+(?:/[a-zA-Z_.0-9]+)?`,
`OP = <=?|>=?|!?=|exists|~|type|size[><$]?`,
`VALUE = -?\d+(?:\.\d+)?|'[^']+'|"[^"]+"|[Tt]rue|[Ff]alse|[a-zA-Z_][a-zA-Z_.0-9]*`.

We reproduce `re.match` backtracking exactly: greedy repetitions are
enumerated longest-first, ordered alternation tries alternatives in pattern
order, and the match only has to consume a prefix of the input.  The `\s*`
separators may be consumed maximally without backtracking since no operator
or value alternative can begin with a whitespace character. -/

/-- All splits of a greedy `[p]+` repetition, longest match first. -/
def plusSplits (p : Char → Bool) (cs : List Char) : List (List Char × List Char) :=
  let n := (cs.takeWhile p).length
  (List.range n).map fun i => (cs.take (n - i), cs.drop (n - i))

/-- Candidate matches for the FIELD group, in backtracking order: for each
main-part length (longest first), first the variants with the optional
`/subfield` (subfield longest first), then the variant without it. -/
def fieldCandidates (cs : List Char) : List (List Char × List Char) :=
  ((plusSplits isFieldChar cs).map fun mr =>
    (match mr.2 with
     | '/' :: rest2 =>
       (plusSplits isFieldChar rest2).map fun sr => (mr.1 ++ '/' :: sr.1, sr.2)
     | _ => [])
    ++ [mr]).flatten

/-- Candidate matches for the OP group.  The alternatives have pairwise
disjoint first characters, so at most one alternative applies at a given
position; within an alternative the optional suffix is tried greedily. -/
def opCandidates : List Char → List (String × List Char)
  | '<' :: '=' :: rest => [("<=", rest), ("<", '=' :: rest)]
  | '<' :: rest => [("<", rest)]
  | '>' :: '=' :: rest => [(">=", rest), (">", '=' :: rest)]
  | '>' :: rest => [(">", rest)]
  | '!' :: '=' :: rest => [("!=", rest)]
  | '=' :: rest => [("=", rest)]
  | '~' :: rest => [("~", rest)]
  | 'e' :: 'x' :: 'i' :: 's' :: 't' :: 's' :: rest => [("exists", rest)]
  | 't' :: 'y' :: 'p' :: 'e' :: rest => [("type", rest)]
  | 's' :: 'i' :: 'z' :: 'e' :: '>' :: rest => [("size>", rest), ("size", '>' :: rest)]
  | 's' :: 'i' :: 'z' :: 'e' :: '<' :: rest => [("size<", rest), ("size", '<' :: rest)]
  | 's' :: 'i' :: 'z' :: 'e' :: '$' :: rest => [("size$", rest), ("size", '$' :: rest)]
  | 's' :: 'i' :: 'z' :: 'e' :: rest => [("size", rest)]
  | _ => []

/-- The numeric VALUE alternative `-?\d+(?:\.\d+)?` (token and remainder). -/
def numToken (cs : List Char) : Option (String × List Char) :=
  let sr : List Char × List Char :=
    match cs with
    | '-' :: r => (['-'], r)
    | _ => ([], cs)
  let ds := sr.2.takeWhile Char.isDigit
  if ds.isEmpty then none
  else
    let rest2 := sr.2.drop ds.length
    match rest2 with
    | '.' :: r3 =>
      let fs := r3.takeWhile Char.isDigit
      if fs.isEmpty then some (String.mk (sr.1 ++ ds), rest2)
      else some (String.mk (sr.1 ++ ds ++ '.' :: fs), r3.drop fs.length)
    | _ => some (String.mk (sr.1 ++ ds), rest2)

/-- A quoted VALUE alternative (`'[^']+'` or `"[^"]+"`); the captured token
keeps its quotes, exactly like the regex group. -/
def quotedToken (q : Char) (cs : List Char) : Option (String × List Char) :=
  match cs with
  | c :: rest =>
    if c == q then
      let body := rest.takeWhile (fun d => d != q)
      if body.isEmpty then none
      else
        match rest.drop body.length with
        | c2 :: r2 => if c2 == q then some (String.mk (q :: body ++ [q]), r2) else none
        | [] => none
    else none
  | [] => none

/-- The `[Tt]rue|[Ff]alse` VALUE alternatives. -/
def boolToken : List Char → Option (String × List Char)
  | 'T' :: 'r' :: 'u' :: 'e' :: rest => some ("True", rest)
  | 't' :: 'r' :: 'u' :: 'e' :: rest => some ("true", rest)
  | 'F' :: 'a' :: 'l' :: 's' :: 'e' :: rest => some ("False", rest)
  | 'f' :: 'a' :: 'l' :: 's' :: 'e' :: rest => some ("false", rest)
  | _ => none

/-- The bare-identifier VALUE alternative `[a-zA-Z_][a-zA-Z_.0-9]*`. -/
def nameToken (cs : List Char) : Option (String × List Char) :=
  match cs with
  | c :: rest =>
    if isNameStart c then
      let tl := rest.takeWhile isFieldChar
      some (String.mk (c :: tl), rest.drop tl.length)
    else none
  | [] => none

/-- The VALUE group: ordered alternation, first matching alternative wins
(nothing after the group can fail, so no cross-alternative backtracking). -/
def valueToken (cs : List Char) : Option (String × List Char) :=
  numToken cs <|> quotedToken '\'' cs <|> quotedToken '"' cs <|>
    boolToken cs <|> nameToken cs

def firstSome {α β : Type} (f : α → Option β) : List α → Option β
  | [] => none
  | a :: rest =>
    match f a with
    | some b => some b
    | none => firstSome f rest

/-- `relation_re.match`: the three captured groups plus the unconsumed
remainder (`re.match` anchors at the start but ignores trailing text). -/
def reMatchR (input : List Char) : Option (String × String × String × List Char) :=
  firstSome (fun fc =>
      firstSome (fun oc =>
          (valueToken (oc.2.dropWhile isPySpace)).map fun vc =>
            (String.mk fc.1, oc.1, vc.1, vc.2.dropWhile isPySpace))
        (opCandidates (fc.2.dropWhile isPySpace)))
    (fieldCandidates (input.dropWhile isPySpace))

/-! ### Literal coercion (`parse_expr`, lines 158-176 of the source)

The source tries `int(val)`, then `float(val)`, then a boolean dictionary
lookup on `val.lower()`, and finally strips quotes when the value looks like
a quoted string.  `pyParseInt`/`pyParseFloat` model Python's `int`/`float`
string constructors on the token shapes the grammar can capture (digit
grouping underscores and the special float names inf/infinity/nan are not
representable in the rational model and cannot change the outcome on the
tokens reachable here). -/

def natOfDigits (cs : List Char) : Nat :=
  cs.foldl (fun a c => a * 10 + (c.toNat - 48)) 0

def digitsVal (cs : List Char) : Option Nat :=
  if cs.isEmpty then none
  else if cs.all Char.isDigit then some (natOfDigits cs)
  else none

def pyParseInt (s : String) : Option Int :=
  match s.data with
  | '-' :: ds => (digitsVal ds).map fun n => -(n : Int)
  | '+' :: ds => (digitsVal ds).map fun n => (n : Int)
  | ds => (digitsVal ds).map fun n => (n : Int)

def decimalVal (cs : List Char) : Option Dec :=
  let ip := cs.takeWhile Char.isDigit
  if ip.isEmpty then none
  else
    match cs.drop ip.length with
    | [] => some (Dec.ofNat (natOfDigits ip))
    | '.' :: fs =>
      if fs.isEmpty then some (Dec.ofNat (natOfDigits ip))
      else if fs.all Char.isDigit then
        let fs' := (fs.reverse.dropWhile (fun c => c == '0')).reverse
        if fs'.isEmpty then some (Dec.ofNat (natOfDigits ip))
        else some ⟨(natOfDigits (ip ++ fs') : Int), fs'.length⟩
      else none
    | _ => none

def Dec.neg (d : Dec) : Dec := ⟨-d.man, d.exp⟩

def pyParseFloat (s : String) : Option Dec :=
  match s.data with
  | '-' :: cs => (decimalVal cs).map Dec.neg
  | '+' :: cs => decimalVal cs
  | cs => decimalVal cs

def BOOL_WORDS : List (String × Bool) := [("true", true), ("false", false)]

/-- The quoted-string test `re.match(r'".*"|\'.*\'', val)`: the value starts
with a quote and a matching quote occurs later with no newline before it
(`.` does not match a newline). -/
def dotStarQuoted (q : Char) : List Char → Bool
  | c :: rest => c == q && ((rest.takeWhile (fun d => d != '\n')).contains q)
  | [] => false

def isQuotedLit (s : String) : Bool :=
  dotStarQuoted '"' s.data || dotStarQuoted '\'' s.data

/-- Python `val[1:-1]`. -/
def stripQuotes (s : String) : String :=
  String.mk ((s.data.drop 1).dropLast)

/-- The ordered literal-coercion attempts of `parse_expr`. -/
def coerceValue (val : String) : PyVal :=
  match pyParseInt val with
  | some n => .int n
  | none =>
    match pyParseFloat val with
    | some q => .float q
    | none =>
      match BOOL_WORDS.lookup (pyLower val) with
      | some b => .bool b
      | none => if isQuotedLit val then .str (stripQuotes val) else .str val

/-- `parse_expr`: match the grammar and coerce the value literal; a failed
match raises `ValueError("error parsing expression '...'")`. -/
def parse_expr (e : String) : Except PyErr (String × String × PyVal) :=
  match reMatchR e.data with
  | none => .error (.valueError ("error parsing expression '" ++ e ++ "'"))
  | some (f, op, vTok, _) => .ok (f, op, coerceValue vTok)

/-! ### `Field` -/

structure Field where
  name : String
  subname : Option String
deriving DecidableEq, Repr

/-- Dead accessor `Field.full_name` (dotted rendering, never used by the
compile path); `getD` stands in for the `TypeError` a `None` subname would
raise in `'.'.join`. -/
def Field.fullName (f : Field) : String :=
  f.name ++ "." ++ f.subname.getD ""

/-- `Field.__init__` (the compile path always passes a string and no alias
map): split on the single pick separator; a tuple-unpack mismatch for more
than one separator raises `ValueError`. -/
def Field.make (nm : String) : Except PyErr Field :=
  if containsTok nm "/" then
    match pySplit nm "/" with
    | [a, b] => .ok ⟨a, some b⟩
    | _ => .error (.valueError "too many values to unpack (expected 2)")
  else .ok ⟨nm, none⟩

/-! ### `ConstraintOperator` -/

inductive SizeCode where
  | szEq | szGt | szLt | szVar
deriving DecidableEq, Repr

/-- The state of a `ConstraintOperator`: after `__init__` the `op` string of
a size operator is collapsed to `"size"` and the suffix is kept in
`sizeCode`. -/
structure COp where
  op : String
  sizeCode : Option SizeCode
deriving DecidableEq, Repr

def VALID_OPS : List String :=
  [">", "<=", "<", ">=", "=", "!=", "exists", "size", "type", "~",
   "size>", "size<", "size$"]

def szSuffixCode : List Char → Option SizeCode
  | ['>'] => some .szGt
  | ['<'] => some .szLt
  | ['$'] => some .szVar
  | _ => none

/-- `ConstraintOperator.__init__` followed by `_set_size_code`. -/
def COp.make (t : String) : Except PyErr COp :=
  if VALID_OPS.contains t then
    if pyStartsWith t "size" then
      if t.data.length == 4 then .ok ⟨"size", some .szEq⟩
      else
        match szSuffixCode (t.data.drop 4) with
        | some c => .ok ⟨"size", some c⟩
        | none =>
          .error (.valueError ("invalid \"size\" suffix \"" ++
            String.mk (t.data.drop 4) ++ "\""))
    else .ok ⟨t, none⟩
  else .error (.valueError ("bad operation: " ++ t))

/-- The `OP_NOT` table; `None` marks the regex operator, which cannot be
reversed. -/
def OP_NOT : List (String × Option String) :=
  [(">", some "<="), (">=", some "<"), ("<", some ">="), ("<=", some ">"),
   ("=", some "!="), ("!=", some "="),
   ("exists", some "exists"), ("size", some "size"), ("type", some "type"),
   ("~", none)]

/-- `ConstraintOperator.reverse`: replace the op string by its logical
negation, keeping the size code; reversing `~` raises
`BadExpression("cannot reverse operator '~'")` (a key outside the table is
impossible after `__init__`). -/
def COp.reverse (o : COp) : Except PyErr COp :=
  match (OP_NOT.lookup o.op).join with
  | some t => .ok ⟨t, o.sizeCode⟩
  | none => .error (.badExpression ("cannot reverse operator '" ++ o.op ++ "'") "")

def COp.isExists (o : COp) : Bool := o.op == "exists"

def COp.isEq (o : COp) : Bool := o.op == "="

def COp.isNeq (o : COp) : Bool := o.op == "!="

def COp.isEquality (o : COp) : Bool := o.op == "=" || o.op == "!="

def COp.isInequality (o : COp) : Bool :=
  o.op == ">" || o.op == ">=" || o.op == "<" || o.op == "<="

def COp.isSize (o : COp) : Bool := o.sizeCode.isSome

def COp.isVariable (o : COp) : Bool := o.sizeCode == some .szVar

def COp.isSizeLt (o : COp) : Bool := o.sizeCode == some .szLt

def COp.isSizeEq (o : COp) : Bool := o.sizeCode == some .szEq

def COp.isType (o : COp) : Bool := o.op == "type"

def COp.isRegex (o : COp) : Bool := o.op == "~"

/-- The `size_op` property (`SZ_OPS`); fetching it on a non-size operator
raises `RuntimeError`. -/
def COp.sizeOpStr (o : COp) : Except PyErr String :=
  match o.sizeCode with
  | some .szGt => .ok ">"
  | some .szLt => .ok "<"
  | some .szEq => .ok "="
  | some .szVar => .ok "="
  | none => .error (.runtimeError "Attempted to fetch size code for non-size operator")

/-! ### `Constraint` -/

inductive TypeTag where
  | tNumber | tStr | tBool
deriving DecidableEq, Repr

/-- A constraint comparison value: a coerced literal, or (after `Constraint`
validation) a compiled type tag or a compiled regular expression carrying its
pattern (pattern validity checking lives in Python's external `re` module). -/
inductive CVal where
  | int (n : Int)
  | float (d : Dec)
  | bool (b : Bool)
  | str (s : String)
  | typ (t : TypeTag)
  | regex (pattern : String)
deriving DecidableEq, Repr

/-- Python `isinstance(v, numbers.Number)`: `bool` is a subclass of `int`,
so booleans count as numbers. -/
def pyIsNumber : PyVal → Bool
  | .int _ => true
  | .float _ => true
  | .bool _ => true
  | .str _ => false

def TYPE_MAPPING : List (String × TypeTag) :=
  [("number", .tNumber), ("int", .tNumber), ("integer", .tNumber),
   ("float", .tNumber), ("str", .tStr), ("string", .tStr),
   ("bool", .tBool), ("boolean", .tBool)]

def pyValTypeName : PyVal → String
  | .int _ => "int"
  | .float _ => "float"
  | .bool _ => "bool"
  | .str _ => "str"

def CVal.ofPy : PyVal → CVal
  | .int n => .int n
  | .float q => .float q
  | .bool b => .bool b
  | .str s => .str s

def padZeros (k : Nat) (s : String) : String :=
  String.mk (List.replicate (k - s.length) '0') ++ s

/-- Decimal rendering of the exact-decimal model of a Python float, matching
`repr(float)` on the values reachable from the literal parser (the parsed
form is canonical, so no trailing zeros appear). -/
def floatRepr (d : Dec) : String :=
  if d.exp == 0 then toString d.man ++ ".0"
  else
    let sgn := if d.man < 0 then "-" else ""
    let a := d.man.natAbs
    sgn ++ toString (a / 10 ^ d.exp) ++ "." ++ padZeros d.exp (toString (a % 10 ^ d.exp))

/-- Python `'{}'.format(v)` for a coerced literal. -/
def pyFormatPyVal : PyVal → String
  | .int n => toString n
  | .float d => floatRepr d
  | .bool b => if b then "True" else "False"
  | .str s => s

/-- Python `'{}'.format(v)` for a constraint value (the type-tag and regex
cases never reach a format call on the compile path). -/
def pyFormatCVal : CVal → String
  | .int n => toString n
  | .float d => floatRepr d
  | .bool b => if b then "True" else "False"
  | .str s => s
  | .typ _ => "<class>"
  | .regex p => "re.compile(" ++ p ++ ")"

structure Constraint where
  field : Field
  op : COp
  value : CVal
deriving DecidableEq, Repr

/-- `Constraint.__init__` with raw field and operator tokens (the only form
the compile path uses): build the operator and field, then cross-validate
the operator/value combination exactly as the source does.  Note that
`value.lower()` on a non-string value raises `AttributeError`, not
`ValueError`. -/
def Constraint.make (fld : String) (opTok : String) (v : PyVal) :
    Except PyErr Constraint :=
  match COp.make opTok with
  | .error e => .error e
  | .ok op =>
  match Field.make fld with
  | .error e => .error e
  | .ok f =>
  if op.isInequality && !(pyIsNumber v) then
    .error (.valueError ("inequality with non-numeric value: " ++ pyFormatPyVal v))
  else if op.isType then
    match v with
    | .str s =>
      match TYPE_MAPPING.lookup (pyLower s) with
      | some t => .ok ⟨f, op, .typ t⟩
      | none =>
        .error (.valueError ("value for type, " ++ pyLower s ++
          ", not in (number, int, integer, float, str, string, bool, boolean)"))
    | _ => .error (.attributeError ("'" ++ pyValTypeName v ++
        "' object has no attribute 'lower'"))
  else if op.isRegex then
    if pyIsNumber v then
      .error (.valueError ("regular expression with numeric value: " ++ pyFormatPyVal v))
    else
      match v with
      | .str s => .ok ⟨f, op, .regex s⟩
      | _ => .ok ⟨f, op, .regex ""⟩
  else .ok ⟨f, op, CVal.ofPy v⟩

/-! ### `MongoClause` -/

/-- Clause destinations `LOC_MAIN`, `LOC_WHERE`, `LOC_MAIN2`. -/
inductive Loc where
  | main | whereLoc | main2
deriving DecidableEq, Repr

/-- `MONGO_OPS`; the `=` operator maps to `None` (no native operator tag). -/
def MONGO_OPS : List (String × Option String) :=
  [(">", some "$gt"), (">=", some "$gte"), ("<", some "$lt"), ("<=", some "$lte"),
   ("exists", some "$exists"), ("size", some "$size"), ("type", some "$type"),
   ("~", some "$regex"), ("!=", some "$ne"), ("=", none)]

def JS_OPS : List (String × String) := [("=", "==")]

/-- A `$where` condition in structured form; `renderJs` produces exactly the
format-string output of the source, and the structured form is what the
matching semantics below evaluates. -/
inductive JsCond where
  | lengthCmp (fieldName : String) (jsOp : String) (bound : CVal)
  | lengthVar (fieldName : String) (jsOp : String) (other : String)
  | typeofCmp (fieldName : String) (jsOp : String) (typeName : String)
deriving DecidableEq, Repr

def renderJs : JsCond → String
  | .lengthCmp f op v => "this." ++ f ++ ".length " ++ op ++ " " ++ pyFormatCVal v
  | .lengthVar f op g => "this." ++ f ++ ".length " ++ op ++ " this." ++ g
  | .typeofCmp f op t => "typeof this." ++ f ++ " " ++ op ++ " \"" ++ t ++ "\""

/-- The right-hand side of a native single-field fragment:
`{field: value}` or `{field: {tag: value}}`. -/
inductive NativeRhs where
  | plain (v : CVal)
  | tagged (tag : String) (v : CVal)
deriving DecidableEq, Repr

inductive CExpr where
  | ndoc (fieldName : String) (rhs : NativeRhs)
  | js (cond : JsCond)
deriving DecidableEq, Repr

structure MongoClause where
  loc : Loc
  expr : CExpr
  rev : Bool
deriving DecidableEq, Repr

def JS_TYPES : TypeTag → String
  | .tNumber => "number"
  | .tStr => "string"
  | .tBool => "boolean"

/-- Python `isinstance(v, int)`: `bool` is a subclass of `int`. -/
def pyIsIntLike : CVal → Bool
  | .int _ => true
  | .bool _ => true
  | _ => false

/-- The integer a Python `int`-like value denotes in comparisons
(`True == 1`, `False == 0`). -/
def cvalAsInt : CVal → Int
  | .int n => n
  | .bool b => if b then 1 else 0
  | _ => 0

/-- `MongoClause._check_size`. -/
def checkSize (op : COp) (v : CVal) : Except PyErr Unit :=
  if !(pyIsIntLike v) then
    .error (.valueError ("wrong type for size: " ++ pyFormatCVal v))
  else if cvalAsInt v < 0 then
    .error (.valueError ("negative value for size: " ++ pyFormatCVal v))
  else if op.isSizeLt && cvalAsInt v == 0 then
    .error (.valueError ("value 0 is not allowed for size operator \"" ++ op.op ++ "\""))
  else .ok ()

/-- `MongoClause._mongo_op_str` (the key is always present for operators
produced by `ConstraintOperator`). -/
def mongoOpStr (o : COp) : Option String :=
  (MONGO_OPS.lookup o.op).join

/-- `MongoClause._js_op_str`: `JS_OPS.get(str(op), op)` — the fallback is the
operator itself, which renders as its op string. -/
def jsOpStr (o : COp) : String :=
  (JS_OPS.lookup o.op).getD o.op

/-- `MongoClause._reverse_operator`: copy, reverse, then check the reversed
operator is in `MONGO_OPS`. -/
def reverseOperator (o : COp) : Except PyErr COp :=
  match o.reverse with
  | .error e => .error e
  | .ok r =>
    if (MONGO_OPS.lookup r.op).isSome then .ok r
    else .error (.valueError ("unknown operator: " ++ r.op))

/-- `MongoClause._create` (together with `__init__`'s bookkeeping): produce
the clause location and expression for a constraint, optionally reversing
its sense. -/
def MongoClause.create (c : Constraint) (rv : Bool) (existsMain : Bool) :
    Except PyErr MongoClause :=
  match (if rv then reverseOperator c.op else .ok c.op) with
  | .error e => .error e
  | .ok op =>
  let mop := mongoOpStr op
  if op.isExists then
    let loc := if existsMain then Loc.main2 else Loc.main
    match c.value with
    | .bool b =>
      let ncv := if rv then !b else b
      .ok ⟨loc, .ndoc c.field.name (.tagged (mop.getD "") (.bool ncv)), rv⟩
    | _ => .error .assertionError
  else if op.isSize then
    if op.isVariable then
      let jop := if rv then "!=" else "=="
      .ok ⟨Loc.whereLoc, .js (.lengthVar c.field.name jop (pyFormatCVal c.value)), rv⟩
    else if op.isSizeEq && !rv then
      .ok ⟨Loc.main, .ndoc c.field.name (.tagged "$size" c.value), rv⟩
    else
      match checkSize op c.value with
      | .error e => .error e
      | .ok _ =>
      match op.sizeOpStr with
      | .error e => .error e
      | .ok sop =>
      match COp.make sop with
      | .error e => .error e
      | .ok szop0 =>
      match (if rv then szop0.reverse else .ok szop0) with
      | .error e => .error e
      | .ok szop =>
        .ok ⟨Loc.whereLoc, .js (.lengthCmp c.field.name (jsOpStr szop) c.value), rv⟩
  else if op.isType then
    match c.value with
    | .typ t =>
      let top := if rv then "!=" else "=="
      .ok ⟨Loc.whereLoc, .js (.typeofCmp c.field.name top (JS_TYPES t)), rv⟩
    | _ => .error (.runtimeError ("Could not get JS type for " ++ pyFormatCVal c.value))
  else if op.isRegex then
    match c.value with
    | .regex p => .ok ⟨Loc.main, .ndoc c.field.name (.tagged (mop.getD "") (.str p)), rv⟩
    | _ => .error (.attributeError "'object' has no attribute 'pattern'")
  else
    match mop with
    | none => .ok ⟨Loc.main, .ndoc c.field.name (.plain c.value), rv⟩
    | some m =>
      match c.value with
      | .bool b =>
        let ncv := if rv then !b else b
        .ok ⟨Loc.main, .ndoc c.field.name (.plain (.bool ncv)), rv⟩
      | v => .ok ⟨Loc.main, .ndoc c.field.name (.tagged m v), rv⟩

/-! ### Assembled documents and `MongoQuery` -/

/-- A MongoDB query document value: a literal leaf, a mapping (Python dicts
preserve insertion order), or a list. -/
inductive MDoc where
  | leaf (v : CVal)
  | obj (fields : List (String × MDoc))
  | arr (elems : List MDoc)

/-- The dict rendering of a clause expression, for the main/main2 lists
(where-destination clauses carry strings, not dicts). -/
def MongoClause.exprPairs (cl : MongoClause) : List (String × MDoc) :=
  match cl.expr with
  | .ndoc f (.plain v) => [(f, .leaf v)]
  | .ndoc f (.tagged t v) => [(f, .obj [(t, .leaf v)])]
  | .js _ => []

/-- The string rendering of a where-destination clause expression. -/
def MongoClause.jsStr (cl : MongoClause) : String :=
  match cl.expr with
  | .js j => renderJs j
  | .ndoc _ _ => ""

structure MongoQuery where
  main : List MongoClause
  whereCs : List MongoClause
  main2 : List MongoClause
deriving Repr

def MongoQuery.empty : MongoQuery := ⟨[], [], []⟩

/-- `MongoQuery.add_clause`. -/
def MongoQuery.addClause (mq : MongoQuery) (cl : MongoClause) : MongoQuery :=
  match cl.loc with
  | .main => ⟨mq.main ++ [cl], mq.whereCs, mq.main2⟩
  | .whereLoc => ⟨mq.main, mq.whereCs ++ [cl], mq.main2⟩
  | .main2 => ⟨mq.main, mq.whereCs, mq.main2 ++ [cl]⟩

/-- Python `dict` assignment `q[k] = v`: replace in place, else append. -/
def setKey (q : List (String × MDoc)) (k : String) (v : MDoc) :
    List (String × MDoc) :=
  if q.any (fun p => p.1 == k) then
    q.map fun p => if p.1 == k then (k, v) else p
  else q ++ [(k, v)]

/-- Python `q.update(src)`. -/
def updatePairs (q src : List (String × MDoc)) : List (String × MDoc) :=
  src.foldl (fun acc kv => setKey acc kv.1 kv.2) q

/-- Python `q['$or'].append(d)` (the stored value is always a list here). -/
def appendToOr (q : List (String × MDoc)) (d : MDoc) : List (String × MDoc) :=
  q.map fun p =>
    if p.1 == "$or" then
      (p.1, match p.2 with
            | .arr xs => .arr (xs ++ [d])
            | other => other)
    else p

/-- `MongoQuery.to_mongo(disjunction)`; the compile path always passes
`disjunction=False` (it hands in `rev`, which is always `False`), so the
disjunction branches below are embedded for completeness but never taken by
the public entry point.  The `main2` merge loop is likewise embedded even
though `main2` is only populated when a caller asks for `exists_main`. -/
def MongoQuery.toMongo (mq : MongoQuery) (disjunction : Bool) : MDoc :=
  let clauses := mq.main.map MongoClause.exprPairs
  let q : List (String × MDoc) := []
  let q :=
    if clauses.isEmpty then q
    else if disjunction then
      if clauses.length + mq.whereCs.length > 1 then
        setKey q "$or" (.arr (clauses.map MDoc.obj))
      else updatePairs q (clauses.headD [])
    else clauses.foldl updatePairs q
  let q := mq.main2.foldl (fun q cl =>
    (cl.exprPairs).foldl (fun q fv =>
      match q.lookup fv.1 with
      | some old =>
        match old, fv.2 with
        | .obj ofs, .obj nfs => setKey q fv.1 (.obj (updatePairs ofs nfs))
        | _, _ => q
      | none => q ++ [fv]) q) q
  match mq.whereCs with
  | [] => .obj q
  | w :: _ =>
    let wsep := if w.rev then " || " else " && "
    let wc := joinSep wsep (mq.whereCs.map MongoClause.jsStr)
    if disjunction then
      let q := if q.any (fun p => p.1 == "$or") then q else setKey q "$or" (.arr [])
      .obj (appendToOr q (.obj [("$where", .leaf (.str wc))]))
    else .obj (setKey q "$where" (.leaf (.str wc)))

/-! ### The public entry point `to_mongo` -/

/-- The three input shapes the claims exercise: a string, a flat list of
constraint strings (one AND-group), or a list of lists (OR of AND-groups).
The source distinguishes the last two by testing whether the first element
is a list. -/
inductive QueryInput where
  | qstr (s : String)
  | qflat (elems : List String)
  | qnested (groups : List (List String))
deriving DecidableEq, Repr

/-- The OR/AND grouping of a string input: split on `" or "` when present,
strip cosmetic parentheses from each group, split each group on `" and "`. -/
def stringGroups (s : String) : List (List String) :=
  if containsTok s " or " then
    (pySplit s " or ").map fun g => pySplit (unpar g) " and "
  else
    [pySplit (unpar s) " and "]

def inputGroups : QueryInput → List (List String)
  | .qstr s => stringGroups s
  | .qflat xs => [xs]
  | .qnested xss => xss

/-- `qry == "" or qry == []`. -/
def isEmptyInput : QueryInput → Bool
  | .qstr s => s == ""
  | .qflat xs => xs.isEmpty
  | .qnested xss => xss.isEmpty

/-- Only a `ValueError` raised while parsing and building the constraint is
wrapped into `BadExpression(e, err)`; clause creation happens outside the
`try` block, so its errors propagate with their original class. -/
def wrapValueErr (e : String) : PyErr → PyErr
  | .valueError m => .badExpression e m
  | err => err

/-- The body of the inner loop of `to_mongo`: strip parentheses, parse, build
the constraint (wrapping `ValueError`), then build the clause with
`rev=False` outside the error wrapper. -/
def compileConstraintStr (e0 : String) : Except PyErr MongoClause :=
  let e := unpar e0
  match parse_expr e with
  | .error err => .error (wrapValueErr e err)
  | .ok fov =>
    match Constraint.make fov.1 fov.2.1 fov.2.2 with
    | .error err => .error (wrapValueErr e err)
    | .ok c => MongoClause.create c false false

/-- A Python `for` loop collecting results, aborting on the first raised
exception. -/
def exceptMapM {α β : Type} (f : α → Except PyErr β) : List α → Except PyErr (List β)
  | [] => .ok []
  | a :: rest =>
    match f a with
    | .error e => .error e
    | .ok b =>
      match exceptMapM f rest with
      | .error e => .error e
      | .ok bs => .ok (b :: bs)

/-- One AND-group compiled to its document: collect the clauses into a
`MongoQuery` and assemble with `disjunction=False` (the `rev` flag). -/
def compileGroup (exprs : List String) : Except PyErr MDoc :=
  match exceptMapM compileConstraintStr exprs with
  | .error e => .error e
  | .ok cls => .ok ((cls.foldl MongoQuery.addClause MongoQuery.empty).toMongo false)

/-- The public `to_mongo` entry point. -/
def to_mongo (qry : QueryInput) : Except PyErr MDoc :=
  if isEmptyInput qry then .ok (.obj [])
  else
    match exceptMapM compileGroup (inputGroups qry) with
    | .error e => .error e
    | .ok filters =>
      if filters.length > 1 then .ok (.obj [("$or", .arr filters)])
      else .ok (filters.headD (.obj []))

/-! ### Matching semantics

The compiled documents are consumed by an external database engine, so a
matching semantics is needed to state what "the two documents are logically
complementary" means.  We interpret the fragments the compiler emits over a
document `List (String × MVal)` in the conventional way for the target
dialect: typed equality for `{field: v}`, `$ne` as the negation of equality
(it also matches a missing field), numeric comparison for the inequality
tags, `$size` on arrays, `$exists` as presence, and JavaScript evaluation of
the structured `$where` conditions (`typeof` of a missing field is
`"undefined"`; `.length` is defined for arrays and strings; `!=` is the
exact negation of `==`).  Regular-expression matching is external and the
`~` operator is excluded from every semantic claim, so its tag matches
nothing here. -/

/-- A runtime value stored in a database document (numbers are exact
decimals, like every number the compiler can emit). -/
inductive MVal where
  | num (d : Dec)
  | bool (b : Bool)
  | str (s : String)
  | arr (elems : List MVal)

abbrev MongoDocV := List (String × MVal)

def dlookup (doc : MongoDocV) (k : String) : Option MVal :=
  doc.lookup k

def decOfCVal : CVal → Option Dec
  | .int n => some (Dec.ofInt n)
  | .float d => some d
  | _ => none

/-- Typed equality between a document value and a constraint value. -/
def mvEq : MVal → CVal → Bool
  | .num q, .int n => q.beqN (Dec.ofInt n)
  | .num q, .float p => q.beqN p
  | .bool a, .bool b => a == b
  | .str s, .str t => s == t
  | _, _ => false

def eqMatch (dv : Option MVal) (v : CVal) : Bool :=
  match dv with
  | some m => mvEq m v
  | none => false

def cmpMatch (dv : Option MVal) (v : CVal) (f : Dec → Dec → Bool) : Bool :=
  match dv, decOfCVal v with
  | some (.num q), some r => f q r
  | _, _ => false

def intOfCVal : CVal → Option Int
  | .int n => some n
  | _ => none

/-- Whether a single-field native fragment matches a document. -/
def nativeMatches (fieldName : String) (rhs : NativeRhs) (doc : MongoDocV) : Bool :=
  let dv := dlookup doc fieldName
  match rhs with
  | .plain v => eqMatch dv v
  | .tagged "$ne" v => !(eqMatch dv v)
  | .tagged "$gt" v => cmpMatch dv v fun a b => b.bltN a
  | .tagged "$gte" v => cmpMatch dv v fun a b => b.bleN a
  | .tagged "$lt" v => cmpMatch dv v Dec.bltN
  | .tagged "$lte" v => cmpMatch dv v Dec.bleN
  | .tagged "$exists" v =>
    (match v with
     | .bool true => dv.isSome
     | .bool false => dv.isNone
     | _ => false)
  | .tagged "$size" v =>
    (match dv, intOfCVal v with
     | some (.arr xs), some n => ((xs.length : Int) == n)
     | _, _ => false)
  | .tagged _ _ => false

/-- The JavaScript `.length` of a document value, when defined. -/
def lengthOfMV : Option MVal → Option Nat
  | some (.arr xs) => some xs.length
  | some (.str s) => some s.length
  | _ => none

/-- JavaScript numeric coercion of a constraint value appearing as a bound
(after `_check_size` the bound is always an `int` or a `bool`). -/
def jsNumOfCVal : CVal → Option Dec
  | .int n => some (Dec.ofInt n)
  | .float d => some d
  | .bool b => some (Dec.ofNat (if b then 1 else 0))
  | _ => none

def jsCmpOp (op : String) (a b : Dec) : Bool :=
  if op == ">" then b.bltN a
  else if op == ">=" then b.bleN a
  else if op == "<" then a.bltN b
  else if op == "<=" then a.bleN b
  else if op == "==" then a.beqN b
  else if op == "!=" then !(a.beqN b)
  else false

/-- JavaScript loose equality of a number against another field's value
(string-to-number coercion omitted: unreachable for the emitted fragments). -/
def jsLooseEqNum (a : Dec) : Option MVal → Bool
  | some (.num q) => a.beqN q
  | some (.bool b) => a.beqN (Dec.ofNat (if b then 1 else 0))
  | _ => false

/-- Evaluation of a structured `$where` condition against a document; a
condition whose `.length` access would throw matches nothing. -/
def evalJs (j : JsCond) (doc : MongoDocV) : Bool :=
  match j with
  | .lengthCmp f op v =>
    (match lengthOfMV (dlookup doc f), jsNumOfCVal v with
     | some L, some r => jsCmpOp op (Dec.ofNat L) r
     | _, _ => false)
  | .lengthVar f op g =>
    (match lengthOfMV (dlookup doc f) with
     | some L =>
       let e := jsLooseEqNum (Dec.ofNat L) (dlookup doc g)
       if op == "==" then e else if op == "!=" then !e else false
     | none => false)
  | .typeofCmp f op t =>
    let tn :=
      match dlookup doc f with
      | none => "undefined"
      | some (.num _) => "number"
      | some (.bool _) => "boolean"
      | some (.str _) => "string"
      | some (.arr _) => "object"
    if op == "==" then tn == t else if op == "!=" then tn != t else false

/-- Whether a compiled clause matches a document (the clause location is a
destination, not part of the matching semantics). -/
def clauseMatches (cl : MongoClause) (doc : MongoDocV) : Bool :=
  match cl.expr with
  | .ndoc f rhs => nativeMatches f rhs doc
  | .js j => evalJs j doc

def CVal.isBool : CVal → Bool
  | .bool _ => true
  | _ => false

def CVal.isIntVal : CVal → Bool
  | .int _ => true
  | _ => false

/-- The domain over which the forward and reversed clause of a constraint
inspect the same information: documents whose field value has the kind the
emitted fragments compare (numbers for numeric inequalities, booleans for
boolean-valued equality fragments, an array for the native `$size` fragment,
a length-bearing value for the scripted size comparisons).  Equality with a
non-boolean value and the type check are unrestricted. -/
def compatibleDoc (c : Constraint) (doc : MongoDocV) : Bool :=
  let dv := dlookup doc c.field.name
  if c.op.isEquality || c.op.isInequality then
    match c.value with
    | .bool _ => (match dv with | some (.bool _) => true | _ => false)
    | _ =>
      if c.op.isInequality then
        (match dv with | some (.num _) => true | _ => false)
      else true
  else if c.op.isSizeEq then
    c.value.isIntVal && (match dv with | some (.arr _) => true | _ => false)
  else if c.op.isSize then
    (lengthOfMV dv).isSome
  else true

/-! ### Small definitions used only by theorem statements -/

def hasKeyB (q : List (String × MDoc)) (k : String) : Bool :=
  q.any fun p => p.1 == k

/-- Whether the top level of an assembled document carries the given key. -/
def hasTopKey : MDoc → String → Bool
  | .obj q, k => hasKeyB q k
  | _, _ => false

/-- A string wrapped in (possibly unbalanced) parenthesis characters. -/
def parenWrap (p : Nat) (s : String) (q : Nat) : String :=
  String.mk (List.replicate p '(' ++ s.data ++ List.replicate q ')')

/-- A four-letter word spelling "true" in the chosen letter cases. -/
def trueCased (b₁ b₂ b₃ b₄ : Bool) : String :=
  String.mk [if b₁ then 'T' else 't', if b₂ then 'R' else 'r',
             if b₃ then 'U' else 'u', if b₄ then 'E' else 'e']

/-- A five-letter word spelling "false" in the chosen letter cases. -/
def falseCased (b₁ b₂ b₃ b₄ b₅ : Bool) : String :=
  String.mk [if b₁ then 'F' else 'f', if b₂ then 'A' else 'a',
             if b₃ then 'L' else 'l', if b₄ then 'S' else 's',
             if b₅ then 'E' else 'e']

/-! ### Helper lemmas -/

theorem beq_string_eq {a b : String} (h : (a == b) = true) : a = b :=
  eq_of_beq h

theorem checkSize_neg (o : COp) (n : Int) (hn : n < 0) :
    checkSize o (.int n) =
      .error (.valueError ("negative value for size: " ++ toString n)) := by
  show (if n < 0 then _ else _) = _
  rw [if_pos hn]
  rfl

theorem create_size_ineq_neg (f : Field) (code : SizeCode)
    (hc : code = SizeCode.szGt ∨ code = SizeCode.szLt) (n : Int)
    (hn : n < 0) :
    MongoClause.create ⟨f, ⟨"size", some code⟩, .int n⟩ false false =
      .error (.valueError ("negative value for size: " ++ toString n)) := by
  rcases hc with rfl | rfl <;>
    · simp [MongoClause.create, COp.isExists, COp.isSize, COp.isVariable, COp.isSizeEq]
      rw [checkSize_neg _ n hn]

theorem dropWhile_replicate_append (pr : Char → Bool) (c : Char)
    (hc : pr c = true) (n : Nat) (rest : List Char) :
    List.dropWhile pr (List.replicate n c ++ rest) = List.dropWhile pr rest := by
  induction n with
  | zero => rfl
  | succ k ih => simp [List.replicate_succ, List.dropWhile_cons, hc, ih]

theorem containsSeq_eq_false (sep : List Char) (c : Char) (hc : c ∈ sep) :
    ∀ cs : List Char, c ∉ cs → containsSeq sep cs = false := by
  intro cs
  induction cs with
  | nil => intro _; rfl
  | cons d rest ih =>
    intro h
    have h1 : sep.isPrefixOf (d :: rest) = false := by
      cases hp : sep.isPrefixOf (d :: rest)
      · rfl
      · exact absurd ((List.isPrefixOf_iff_prefix.mp hp).subset hc) h
    have h2 : containsSeq sep rest = false :=
      ih fun hm => h (List.mem_cons_of_mem _ hm)
    simp [containsSeq, h1, h2]

theorem stripEnds_eq_self (pr : Char → Bool) (cs : List Char)
    (h1 : ∀ c, cs.head? = some c → pr c = false)
    (h2 : ∀ c, cs.getLast? = some c → pr c = false) :
    stripEnds pr cs = cs := by
  unfold stripEnds
  have e1 : cs.dropWhile pr = cs := by
    cases cs with
    | nil => rfl
    | cons a l => simp [List.dropWhile_cons, h1 a rfl]
  rw [e1]
  have e2 : cs.reverse.dropWhile pr = cs.reverse := by
    cases hr : cs.reverse with
    | nil => rfl
    | cons a l =>
      have ha : cs.getLast? = some a := by
        rw [← List.head?_reverse, hr]
        rfl
      simp [List.dropWhile_cons, h2 a ha]
  rw [e2, List.reverse_reverse]

theorem unpar_parenWrap_core (p q : Nat) :
    unpar (parenWrap p "a = 1" q) = "a = 1" := by
  have hd1 : List.dropWhile isPySpace
      (List.replicate p '(' ++ ('a' :: ' ' :: '=' :: ' ' :: '1' :: []) ++
        List.replicate q ')') =
      List.replicate p '(' ++ ('a' :: ' ' :: '=' :: ' ' :: '1' :: []) ++
        List.replicate q ')' := by
    cases p <;> rfl
  have hrev : (List.replicate p '(' ++ ('a' :: ' ' :: '=' :: ' ' :: '1' :: []) ++
      List.replicate q ')').reverse =
      List.replicate q ')' ++ (('1' :: ' ' :: '=' :: ' ' :: 'a' :: []) ++
        List.replicate p '(') := by
    simp [List.reverse_append, List.reverse_replicate, List.append_assoc]
  have hd2 : List.dropWhile isPySpace
      (List.replicate q ')' ++ (('1' :: ' ' :: '=' :: ' ' :: 'a' :: []) ++
        List.replicate p '(')) =
      List.replicate q ')' ++ (('1' :: ' ' :: '=' :: ' ' :: 'a' :: []) ++
        List.replicate p '(') := by
    cases q <;> rfl
  have hws : stripEnds isPySpace
      (List.replicate p '(' ++ ('a' :: ' ' :: '=' :: ' ' :: '1' :: []) ++
        List.replicate q ')') =
      List.replicate p '(' ++ ('a' :: ' ' :: '=' :: ' ' :: '1' :: []) ++
        List.replicate q ')' := by
    unfold stripEnds
    rw [hd1, hrev, hd2, ← hrev, List.reverse_reverse]
  have hp1 : List.dropWhile isParenChar
      (List.replicate p '(' ++ ('a' :: ' ' :: '=' :: ' ' :: '1' :: []) ++
        List.replicate q ')') =
      ('a' :: ' ' :: '=' :: ' ' :: '1' :: []) ++ List.replicate q ')' := by
    rw [List.append_assoc, dropWhile_replicate_append isParenChar '(' rfl]
    rfl
  have hp2 : (('a' :: ' ' :: '=' :: ' ' :: '1' :: []) ++ List.replicate q ')').reverse =
      List.replicate q ')' ++ ('1' :: ' ' :: '=' :: ' ' :: 'a' :: []) := by
    simp [List.reverse_append, List.reverse_replicate]
  have hp3 : List.dropWhile isParenChar
      (List.replicate q ')' ++ ('1' :: ' ' :: '=' :: ' ' :: 'a' :: [])) =
      '1' :: ' ' :: '=' :: ' ' :: 'a' :: [] := by
    rw [dropWhile_replicate_append isParenChar ')' rfl]
    rfl
  show String.mk (stripEnds isParenChar (stripEnds isPySpace
    (List.replicate p '(' ++ ('a' :: ' ' :: '=' :: ' ' :: '1' :: []) ++
      List.replicate q ')'))) = "a = 1"
  rw [hws]
  unfold stripEnds
  rw [hp1, hp2, hp3]
  rfl

theorem stringGroups_parenWrap (p q : Nat) :
    stringGroups (parenWrap p "a = 1" q) = [["a = 1"]] := by
  have hno : containsTok (parenWrap p "a = 1" q) " or " = false := by
    apply containsSeq_eq_false _ 'o' (by simp)
    intro hm
    simp only [parenWrap, List.mem_append, List.mem_replicate] at hm
    rcases hm with (h | h) | h
    · exact absurd h.2 (by decide)
    · simp at h
    · exact absurd h.2 (by decide)
  unfold stringGroups
  rw [hno]
  simp only [Bool.false_eq_true, if_false]
  rw [unpar_parenWrap_core]
  rfl

theorem parenWrap_ne_empty (p q : Nat) :
    ((parenWrap p "a = 1" q) == "") = false := by
  cases p <;> rfl

theorem to_mongo_qstr_unfold (s : String) (hs : (s == "") = false) :
    to_mongo (.qstr s) =
      match exceptMapM compileGroup (stringGroups s) with
      | .error e => .error e
      | .ok filters =>
        if filters.length > 1 then .ok (.obj [("$or", .arr filters)])
        else .ok (filters.headD (.obj [])) := by
  unfold to_mongo
  rw [show isEmptyInput (.qstr s) = false from hs]
  rfl

theorem containsSeq_singleton_of_mem (c : Char) (cs : List Char) (h : c ∈ cs) :
    containsSeq [c] cs = true := by
  induction cs with
  | nil => cases h
  | cons d rest ih =>
    rcases List.mem_cons.mp h with rfl | hm
    · simp [containsSeq, List.isPrefixOf]
    · simp [containsSeq, ih hm]

theorem pySplitGo_no_sep (cs : List Char) (h : ∀ ch ∈ cs, ch ≠ '/') :
    ∀ (fuel : Nat) (acc : List Char), cs.length ≤ fuel →
      pySplitGo ['/'] fuel cs acc = [acc.reverse ++ cs] := by
  induction cs with
  | nil =>
    intro fuel acc _
    cases fuel <;> simp [pySplitGo]
  | cons c rest ih =>
    intro fuel acc hf
    cases fuel with
    | zero => simp at hf
    | succ f =>
      have hc : (['/'].isPrefixOf (c :: rest)) = false := by
        have : c ≠ '/' := h c (List.mem_cons_self c rest)
        simp [List.isPrefixOf]
        exact fun he => absurd he.symm this
      rw [pySplitGo, if_neg (by simp [hc])]
      rw [ih (fun ch hm => h ch (List.mem_cons_of_mem _ hm)) f (c :: acc)
        (by simpa using Nat.le_of_succ_le_succ hf)]
      simp

theorem pySplitGo_one_sep (bd : List Char) (hb : ∀ ch ∈ bd, ch ≠ '/') :
    ∀ (ad : List Char), (∀ ch ∈ ad, ch ≠ '/') →
      ∀ (fuel : Nat) (acc : List Char), ad.length + 1 + bd.length ≤ fuel →
        pySplitGo ['/'] fuel (ad ++ '/' :: bd) acc = [acc.reverse ++ ad, bd] := by
  intro ad
  induction ad with
  | nil =>
    intro _ fuel acc hf
    cases fuel with
    | zero => simp at hf
    | succ f =>
      show pySplitGo ['/'] (f + 1) ('/' :: bd) acc = _
      rw [pySplitGo, if_pos (by simp [List.isPrefixOf])]
      show acc.reverse :: pySplitGo ['/'] f bd [] = _
      rw [pySplitGo_no_sep bd hb f [] (by simp at hf; omega)]
      simp
  | cons c rest ih =>
    intro ha fuel acc hf
    cases fuel with
    | zero => simp at hf
    | succ f =>
      show pySplitGo ['/'] (f + 1) (c :: (rest ++ '/' :: bd)) acc = _
      have hc : (['/'].isPrefixOf (c :: (rest ++ '/' :: bd))) = false := by
        have : c ≠ '/' := ha c (List.mem_cons_self c rest)
        simp [List.isPrefixOf]
        exact fun he => absurd he.symm this
      rw [pySplitGo, if_neg (by simp [hc])]
      rw [ih (fun ch hm => ha ch (List.mem_cons_of_mem _ hm)) f (c :: acc)
        (by simp at hf ⊢; omega)]
      simp

theorem field_make_slash (a b : String) (ha : ∀ ch ∈ a.data, ch ≠ '/')
    (hb : ∀ ch ∈ b.data, ch ≠ '/') :
    Field.make (a ++ "/" ++ b) = .ok ⟨a, some b⟩ := by
  have hdata : (a ++ "/" ++ b).data = a.data ++ '/' :: b.data := by
    simp [String.data_append]
  have hct : containsTok (a ++ "/" ++ b) "/" = true := by
    unfold containsTok
    rw [hdata]
    exact containsSeq_singleton_of_mem '/' _ (by simp)
  have hsp : pySplit (a ++ "/" ++ b) "/" = [a, b] := by
    unfold pySplit
    rw [hdata, pySplitGo_one_sep b.data hb a.data ha _ [] (by simp; omega)]
    simp
  unfold Field.make
  rw [hct, hsp]
  rfl

theorem firstSome_eq_some {α β : Type} (f : α → Option β) :
    ∀ (l : List α) (b : β), firstSome f l = some b → ∃ a ∈ l, f a = some b := by
  intro l
  induction l with
  | nil => intro b h; cases h
  | cons a rest ih =>
    intro b h
    unfold firstSome at h
    rcases hf : f a with _ | b'
    · rw [hf] at h
      obtain ⟨x, hx, hfx⟩ := ih b h
      exact ⟨x, List.mem_cons_of_mem _ hx, hfx⟩
    · rw [hf] at h
      injection h with h
      exact ⟨a, List.mem_cons_self a rest, by rw [hf, h]⟩

theorem take_le_takeWhile_all (p : Char → Bool) (cs : List Char) (k : Nat)
    (hk : k ≤ (cs.takeWhile p).length) : (cs.take k).all p = true := by
  have htk : cs.take k = (cs.takeWhile p).take k := by
    conv_lhs => rw [← List.takeWhile_append_dropWhile (p := p) (l := cs)]
    rw [List.take_append_of_le_length hk]
  rw [htk, List.all_eq_true]
  intro x hx
  exact List.mem_takeWhile_imp (List.take_subset _ _ hx)

theorem plusSplits_mem (p : Char → Bool) (cs pr rest : List Char)
    (h : (pr, rest) ∈ plusSplits p cs) : pr ≠ [] ∧ pr.all p = true := by
  unfold plusSplits at h
  simp only [List.mem_map, List.mem_range] at h
  obtain ⟨i, hi, heq⟩ := h
  have hk1 : 1 ≤ (cs.takeWhile p).length - i := by omega
  have hk2 : (cs.takeWhile p).length - i ≤ (cs.takeWhile p).length := by omega
  have hpr : pr = cs.take ((cs.takeWhile p).length - i) := by
    have := congrArg Prod.fst heq
    simpa using this.symm
  constructor
  · rw [hpr]
    intro hnil
    have hlen := congrArg List.length hnil
    rw [List.length_take] at hlen
    simp only [List.length_nil] at hlen
    have hwl : (cs.takeWhile p).length ≤ cs.length :=
      (List.takeWhile_sublist p).length_le
    omega
  · rw [hpr]
    exact take_le_takeWhile_all p cs _ hk2

/-- The shape of a captured FIELD group: either a nonempty run of field
characters, or two such runs joined by the single pick separator. -/
theorem fieldCandidates_shape (cs fld rest : List Char)
    (h : (fld, rest) ∈ fieldCandidates cs) :
    (fld ≠ [] ∧ fld.all isFieldChar = true) ∨
    (∃ m s, fld = m ++ '/' :: s ∧ m ≠ [] ∧ m.all isFieldChar = true ∧
      s ≠ [] ∧ s.all isFieldChar = true) := by
  unfold fieldCandidates at h
  rw [List.mem_flatten] at h
  obtain ⟨grp, hgrp, hmem⟩ := h
  rw [List.mem_map] at hgrp
  obtain ⟨mr, hmr, rfl⟩ := hgrp
  rcases List.mem_append.mp hmem with hsub | hplain
  · right
    split at hsub
    · rw [List.mem_map] at hsub
      obtain ⟨sr, hsr, heq⟩ := hsub
      have h1 := plusSplits_mem isFieldChar cs mr.1 mr.2 hmr
      have h2 := plusSplits_mem isFieldChar _ sr.1 sr.2 hsr
      have hfld : fld = mr.1 ++ '/' :: sr.1 := by
        have := congrArg Prod.fst heq
        simpa using this.symm
      exact ⟨mr.1, sr.1, hfld, h1.1, h1.2, h2.1, h2.2⟩
    · cases hsub
  · left
    rw [List.mem_singleton] at hplain
    have h1 := plusSplits_mem isFieldChar cs mr.1 mr.2 hmr
    have hfld : fld = mr.1 := by
      have := congrArg Prod.fst hplain
      simpa using this
    rw [hfld]
    exact h1

theorem reMatchR_field (cs : List Char) (f o v : String) (rest : List Char)
    (h : reMatchR cs = some (f, o, v, rest)) :
    ∃ fldL restL, (fldL, restL) ∈ fieldCandidates (cs.dropWhile isPySpace) ∧
      f = String.mk fldL := by
  unfold reMatchR at h
  obtain ⟨fc, hfc, hinner⟩ := firstSome_eq_some _ _ _ h
  obtain ⟨oc, hoc, hv⟩ := firstSome_eq_some _ _ _ hinner
  rcases hvt : valueToken (oc.2.dropWhile isPySpace) with _ | vc <;> rw [hvt] at hv
  · cases hv
  · injection hv with hv
    refine ⟨fc.1, fc.2, hfc, ?_⟩
    have := congrArg (fun t => t.1) hv
    simpa using this.symm

theorem reMatchR_good_field (cs : List Char) (f o v : String) (rest : List Char)
    (h : reMatchR cs = some (f, o, v, rest)) :
    ∃ fld, Field.make f = .ok fld ∧ fld.name.data ≠ [] ∧
      fld.name.data.all isFieldChar = true := by
  obtain ⟨fldL, restL, hmem, rfl⟩ := reMatchR_field cs f o v rest h
  rcases fieldCandidates_shape _ _ _ hmem with ⟨hne, hall⟩ |
    ⟨m, s, heq, hm, hmall, hs, hsall⟩
  · have hnoslash : '/' ∉ fldL := by
      intro hmm
      exact absurd (List.all_eq_true.mp hall _ hmm) (by decide)
    have hct : containsTok (String.mk fldL) "/" = false :=
      containsSeq_eq_false _ '/' (by simp) _ hnoslash
    refine ⟨⟨String.mk fldL, none⟩, ?_, hne, hall⟩
    unfold Field.make
    rw [hct]
    rfl
  · subst heq
    have hfstr : String.mk (m ++ '/' :: s) = String.mk m ++ "/" ++ String.mk s := by
      show String.mk (m ++ '/' :: s) = String.mk ((m ++ ['/']) ++ s)
      rw [List.append_assoc]
      rfl
    have hm' : ∀ ch ∈ m, ch ≠ '/' := by
      intro ch hch hc
      subst hc
      exact absurd (List.all_eq_true.mp hmall _ hch) (by decide)
    have hs' : ∀ ch ∈ s, ch ≠ '/' := by
      intro ch hch hc
      subst hc
      exact absurd (List.all_eq_true.mp hsall _ hch) (by decide)
    refine ⟨⟨String.mk m, some (String.mk s)⟩, ?_, hm, hmall⟩
    rw [hfstr]
    exact field_make_slash (String.mk m) (String.mk s) hm' hs'

theorem parse_expr_good_field (e : String) (fov : String × String × PyVal)
    (h : parse_expr e = .ok fov) :
    ∃ fld, Field.make fov.1 = .ok fld ∧ fld.name.data ≠ [] ∧
      fld.name.data.all isFieldChar = true := by
  unfold parse_expr at h
  rcases hm : reMatchR e.data with _ | g <;> rw [hm] at h
  · cases h
  · obtain ⟨f', o', v', rest'⟩ := g
    injection h with h
    have h1 : fov.1 = f' := by rw [← h]
    rw [h1]
    exact reMatchR_good_field e.data f' o' v' rest' hm

theorem constraint_make_field (fld opTok : String) (v : PyVal) (c : Constraint)
    (h : Constraint.make fld opTok v = .ok c) : Field.make fld = .ok c.field := by
  unfold Constraint.make at h
  rcases hop : COp.make opTok with e | op <;> rw [hop] at h
  · cases h
  · rcases hf : Field.make fld with e | f <;> rw [hf] at h
    · cases h
    · repeat' split at h
      all_goals first
        | exact Except.noConfusion h
        | (injection h with h2; subst h2; injections; subst_vars; rfl)

theorem create_shape (c : Constraint) (rv : Bool) (cl : MongoClause)
    (h : MongoClause.create c rv false = .ok cl) :
    (cl.loc = .main ∧ ∃ rhs, cl.expr = .ndoc c.field.name rhs) ∨
    (cl.loc = .whereLoc ∧ ∃ j, cl.expr = .js j) := by
  unfold MongoClause.create at h
  rcases hrev : (if rv then reverseOperator c.op else Except.ok c.op) with e | op <;>
    rw [hrev] at h
  · cases h
  · simp only [] at h
    repeat' split at h
    all_goals first
      | contradiction
      | exact Except.noConfusion h
      | (injection h with h2
         subst h2
         first
           | exact Or.inl ⟨rfl, _, rfl⟩
           | exact Or.inr ⟨rfl, _, rfl⟩)

theorem compileConstraintStr_shape (e0 : String) (cl : MongoClause)
    (h : compileConstraintStr e0 = .ok cl) :
    (cl.loc = .main ∧ ∃ k rhs, cl.expr = .ndoc k rhs ∧ k.data ≠ [] ∧
       k.data.all isFieldChar = true)
    ∨ (cl.loc = .whereLoc ∧ ∃ j, cl.expr = .js j) := by
  unfold compileConstraintStr at h
  simp only [] at h
  rcases hp : parse_expr (unpar e0) with err | fov <;> simp only [hp] at h
  · cases h
  · rcases hc : Constraint.make fov.1 fov.2.1 fov.2.2 with err | c <;> simp only [hc] at h
    · cases h
    · rcases create_shape c false cl h with ⟨hloc, rhs, hexpr⟩ | hjs
      · left
        obtain ⟨fld, hfld, hne, hall⟩ := parse_expr_good_field _ _ hp
        have hcf : Field.make fov.1 = .ok c.field := constraint_make_field _ _ _ _ hc
        rw [hfld] at hcf
        injection hcf with hcf
        refine ⟨hloc, c.field.name, rhs, hexpr, ?_, ?_⟩
        · rw [← hcf]; exact hne
        · rw [← hcf]; exact hall
      · exact .inr hjs

theorem exceptMapM_length {α β : Type} (f : α → Except PyErr β) :
    ∀ (l : List α) (bs : List β), exceptMapM f l = .ok bs → bs.length = l.length := by
  intro l
  induction l with
  | nil =>
    intro bs h
    injection h with h
    rw [← h]
    rfl
  | cons a rest ih =>
    intro bs h
    unfold exceptMapM at h
    rcases hfa : f a with e | b <;> rw [hfa] at h
    · cases h
    · rcases hrest : exceptMapM f rest with e | brest <;> rw [hrest] at h
      · cases h
      · injection h with h
        rw [← h]
        simp [ih brest hrest]

theorem exceptMapM_mem {α β : Type} (f : α → Except PyErr β) :
    ∀ (l : List α) (bs : List β), exceptMapM f l = .ok bs →
      ∀ b ∈ bs, ∃ a ∈ l, f a = .ok b := by
  intro l
  induction l with
  | nil =>
    intro bs h b hb
    injection h with h
    rw [← h] at hb
    cases hb
  | cons a rest ih =>
    intro bs h b hb
    unfold exceptMapM at h
    rcases hfa : f a with e | b0 <;> rw [hfa] at h
    · cases h
    · rcases hrest : exceptMapM f rest with e | brest <;> rw [hrest] at h
      · cases h
      · injection h with h
        rw [← h] at hb
        rcases List.mem_cons.mp hb with rfl | hb2
        · exact ⟨a, List.mem_cons_self a rest, hfa⟩
        · obtain ⟨a', ha', hfa'⟩ := ih brest hrest b hb2
          exact ⟨a', List.mem_cons_of_mem _ ha', hfa'⟩

theorem exceptMapM_get {α β : Type} (f : α → Except PyErr β) :
    ∀ (l : List α) (bs : List β), exceptMapM f l = .ok bs →
      ∀ (i : Nat) (hi : i < l.length), ∃ hb : i < bs.length,
        f (l.get ⟨i, hi⟩) = .ok (bs.get ⟨i, hb⟩) := by
  intro l
  induction l with
  | nil =>
    intro bs h i hi
    cases hi
  | cons a rest ih =>
    intro bs h i hi
    unfold exceptMapM at h
    rcases hfa : f a with e | b0 <;> rw [hfa] at h
    · cases h
    · rcases hrest : exceptMapM f rest with e | brest <;> rw [hrest] at h
      · cases h
      · injection h with h
        subst h
        cases i with
        | zero => exact ⟨Nat.succ_pos _, hfa⟩
        | succ j =>
          obtain ⟨hb, hj⟩ := ih brest hrest j (Nat.lt_of_succ_lt_succ hi)
          exact ⟨Nat.succ_lt_succ hb, hj⟩

theorem addFold_main2_nil (cls : List MongoClause)
    (h : ∀ cl ∈ cls, cl.loc ≠ Loc.main2) :
    ∀ mq : MongoQuery, (cls.foldl MongoQuery.addClause mq).main2 = mq.main2 := by
  induction cls with
  | nil => intro mq; rfl
  | cons a rest ih =>
    intro mq
    rw [List.foldl_cons, ih (fun cl hm => h cl (List.mem_cons_of_mem _ hm))]
    have ha := h a (List.mem_cons_self a rest)
    rcases hl : a.loc with _ | _ | _
    · simp [MongoQuery.addClause, hl]
    · simp [MongoQuery.addClause, hl]
    · exact absurd hl ha

theorem addFold_main_mem (cls : List MongoClause) :
    ∀ (mq : MongoQuery) (x : MongoClause),
      x ∈ (cls.foldl MongoQuery.addClause mq).main → x ∈ mq.main ∨ x ∈ cls := by
  induction cls with
  | nil => intro mq x hx; exact .inl hx
  | cons a rest ih =>
    intro mq x hx
    rw [List.foldl_cons] at hx
    rcases ih _ x hx with hm | hr
    · have hm2 : x ∈ (MongoQuery.addClause mq a).main := hm
      unfold MongoQuery.addClause at hm2
      rcases hl : a.loc with _ | _ | _ <;> rw [hl] at hm2
      · rcases List.mem_append.mp hm2 with h1 | h2
        · exact .inl h1
        · rw [List.mem_singleton] at h2
          exact .inr (h2 ▸ List.mem_cons_self a rest)
      · exact .inl hm2
      · exact .inl hm2
    · exact .inr (List.mem_cons_of_mem _ hr)

theorem any_key_map_set (k : String) (v : MDoc) (t : String) :
    ∀ q : List (String × MDoc),
      ((q.map fun p => if p.1 == k then (k, v) else p).any fun p => p.1 == t) =
        (q.any fun p => p.1 == t) := by
  intro q
  induction q with
  | nil => rfl
  | cons a rest ih =>
    simp only [List.map_cons, List.any_cons, ih]
    by_cases hk : (a.1 == k) = true
    · have ha : a.1 = k := eq_of_beq hk
      simp [hk, ha]
    · simp [hk]

theorem hasKeyB_setKey (q : List (String × MDoc)) (k : String) (v : MDoc) (t : String) :
    hasKeyB (setKey q k v) t = (hasKeyB q t || (k == t)) := by
  unfold setKey hasKeyB
  by_cases hp : (q.any fun p => p.1 == k) = true
  · rw [if_pos hp, any_key_map_set]
    rcases hb : (k == t) with _ | _
    · simp
    · have hk : k = t := eq_of_beq hb
      subst hk
      rw [hp]
      rfl
  · rw [if_neg hp, List.any_append]
    simp [List.any_cons]

theorem hasKeyB_updatePairs (src : List (String × MDoc)) :
    ∀ (q : List (String × MDoc)) (t : String),
      hasKeyB (updatePairs q src) t = (hasKeyB q t || src.any fun p => p.1 == t) := by
  induction src with
  | nil => intro q t; simp [updatePairs, hasKeyB]
  | cons a rest ih =>
    intro q t
    rw [show updatePairs q (a :: rest) = updatePairs (setKey q a.1 a.2) rest from rfl,
      ih, hasKeyB_setKey]
    simp [List.any_cons, Bool.or_assoc]

theorem foldl_updatePairs_no_or (clauseDocs : List (List (String × MDoc)))
    (hd : ∀ d ∈ clauseDocs, (d.any fun p => p.1 == "$or") = false) :
    ∀ q0 : List (String × MDoc), hasKeyB q0 "$or" = false →
      hasKeyB (clauseDocs.foldl updatePairs q0) "$or" = false := by
  induction clauseDocs with
  | nil => intro q0 h0; exact h0
  | cons d rest ih =>
    intro q0 h0
    rw [List.foldl_cons]
    apply ih (fun x hx => hd x (List.mem_cons_of_mem _ hx))
    rw [hasKeyB_updatePairs, h0, hd d (List.mem_cons_self _ _)]
    rfl

theorem toMongo_false_no_or (mq : MongoQuery)
    (hmain : ∀ cl ∈ mq.main, ∀ k rhs, cl.expr = CExpr.ndoc k rhs → (k == "$or") = false)
    (hm2 : mq.main2 = []) :
    hasTopKey (mq.toMongo false) "$or" = false := by
  have hdocs : ∀ d ∈ mq.main.map MongoClause.exprPairs,
      (d.any fun p => p.1 == "$or") = false := by
    intro d hd
    rw [List.mem_map] at hd
    obtain ⟨cl, hcl, rfl⟩ := hd
    rcases hx : cl.expr with ⟨k, rhs⟩ | j
    · rcases rhs with v | ⟨tg, v⟩ <;>
        simp [MongoClause.exprPairs, hx, hmain cl hcl k _ hx]
    · simp [MongoClause.exprPairs, hx]
  have hq1 : hasKeyB
      (if (mq.main.map MongoClause.exprPairs).isEmpty then []
       else (mq.main.map MongoClause.exprPairs).foldl updatePairs []) "$or" = false := by
    split
    · rfl
    · exact foldl_updatePairs_no_or _ hdocs [] rfl
  unfold MongoQuery.toMongo
  rw [hm2]
  rcases hw : mq.whereCs with _ | ⟨w, ws⟩
  · simpa using hq1
  · simp only [Bool.false_eq_true, if_false, List.foldl_nil]
    show hasTopKey (.obj (setKey _ "$where" _)) "$or" = false
    show hasKeyB (setKey _ "$where" _) "$or" = false
    rw [hasKeyB_setKey]
    rw [show ((("$where" : String) == "$or") = false) from rfl] at *
    simp only [Bool.or_false]
    exact hq1

theorem compileGroup_no_or (exprs : List String) (d : MDoc)
    (h : compileGroup exprs = .ok d) : hasTopKey d "$or" = false := by
  unfold compileGroup at h
  rcases hcl : exceptMapM compileConstraintStr exprs with e | cls <;> rw [hcl] at h
  · cases h
  · injection h with h
    subst h
    have hshape : ∀ cl ∈ cls, (cl.loc = Loc.main ∧ ∃ k rhs,
        cl.expr = CExpr.ndoc k rhs ∧ k.data ≠ [] ∧ k.data.all isFieldChar = true)
        ∨ (cl.loc = Loc.whereLoc ∧ ∃ j, cl.expr = CExpr.js j) := by
      intro cl hin
      obtain ⟨e0, _, hcc⟩ := exceptMapM_mem _ _ _ hcl cl hin
      exact compileConstraintStr_shape e0 cl hcc
    apply toMongo_false_no_or
    · intro cl hclm k rhs hexpr
      rcases addFold_main_mem cls _ cl hclm with h0 | hin
      · cases h0
      · rcases hshape cl hin with ⟨_, k', rhs', hexpr', hne, hall⟩ | ⟨_, j, hjs⟩
        · rw [hexpr] at hexpr'
          injection hexpr' with hk _
          rcases hb : (k == "$or") with _ | _
          · rfl
          · have : k = "$or" := eq_of_beq hb
            subst this
            rw [← hk] at hall
            exact absurd hall (by decide)
        · rw [hexpr] at hjs
          cases hjs
    · apply addFold_main2_nil
      intro cl hin
      rcases hshape cl hin with ⟨hloc, _⟩ | ⟨hloc, _⟩ <;> rw [hloc] <;> intro hh <;> cases hh

theorem pySplitGo_ne_nil (sep : List Char) :
    ∀ (fuel : Nat) (cs acc : List Char), pySplitGo sep fuel cs acc ≠ [] := by
  intro fuel
  induction fuel with
  | zero => intro cs acc; cases cs <;> simp [pySplitGo]
  | succ f ih =>
    intro cs acc
    cases cs with
    | nil => simp [pySplitGo]
    | cons c rest =>
      unfold pySplitGo
      split
      · simp
      · exact ih rest (c :: acc)

theorem pySplitGo_contains_two (sep : List Char) :
    ∀ (cs : List Char) (fuel : Nat) (acc : List Char), cs.length ≤ fuel →
      containsSeq sep cs = true → 2 ≤ (pySplitGo sep fuel cs acc).length := by
  intro cs
  induction cs with
  | nil => intro fuel acc _ hc; cases hc
  | cons c rest ih =>
    intro fuel acc hf hc
    cases fuel with
    | zero => simp at hf
    | succ f =>
      unfold pySplitGo
      by_cases hp : sep.isPrefixOf (c :: rest) = true
      · rw [if_pos hp]
        have h1 : 0 < (pySplitGo sep f ((c :: rest).drop sep.length) []).length :=
          List.length_pos.mpr (pySplitGo_ne_nil sep f _ [])
        simp only [List.length_cons]
        omega
      · rw [if_neg hp]
        have hc' : containsSeq sep rest = true := by
          unfold containsSeq at hc
          simp only [Bool.or_eq_true] at hc
          rcases hc with h1 | h2
          · exact absurd h1 hp
          · exact h2
        exact ih f (c :: acc) (by simp at hf; omega) hc'

theorem stringGroups_single (s : String) (h : containsTok s " or " = false) :
    (inputGroups (.qstr s)).length = 1 := by
  show (stringGroups s).length = 1
  unfold stringGroups
  rw [h]
  rfl

theorem stringGroups_multi (s : String) (h : containsTok s " or " = true) :
    2 ≤ (inputGroups (.qstr s)).length := by
  show 2 ≤ (stringGroups s).length
  unfold stringGroups
  rw [h]
  simp only [if_true, List.length_map]
  unfold pySplit
  rw [List.length_map]
  exact pySplitGo_contains_two _ _ _ _ (Nat.le_refl _) h

theorem dec_blt_not_ble (a b : Dec) : a.bltN b = !(b.bleN a) := by
  unfold Dec.bltN Dec.bleN
  generalize a.man * pow10 b.exp = x
  generalize b.man * pow10 a.exp = y
  rcases Int.lt_or_le x y with h | h
  · rw [decide_eq_true h, decide_eq_false (Int.not_le.mpr h)]
    rfl
  · rw [decide_eq_false (Int.not_lt.mpr h), decide_eq_true h]
    rfl

theorem dec_ble_not_blt (a b : Dec) : a.bleN b = !(b.bltN a) := by
  unfold Dec.bleN Dec.bltN
  generalize a.man * pow10 b.exp = x
  generalize b.man * pow10 a.exp = y
  rcases Int.lt_or_le y x with h | h
  · rw [decide_eq_true h, decide_eq_false (Int.not_le.mpr h)]
    rfl
  · rw [decide_eq_false (Int.not_lt.mpr h), decide_eq_true h]
    rfl

theorem typeof_complement (nm T : String) (doc : MongoDocV) :
    evalJs (.typeofCmp nm "==" T) doc = !(evalJs (.typeofCmp nm "!=" T) doc) :=
  (Bool.not_not _).symm

theorem lengthVar_complement (nm g : String) (doc : MongoDocV)
    (hl : (lengthOfMV (dlookup doc nm)).isSome = true) :
    evalJs (.lengthVar nm "==" g) doc = !(evalJs (.lengthVar nm "!=" g) doc) := by
  show (match lengthOfMV (dlookup doc nm) with
      | some L => jsLooseEqNum (Dec.ofNat L) (dlookup doc g)
      | none => false)
    = !(match lengthOfMV (dlookup doc nm) with
      | some L => !(jsLooseEqNum (Dec.ofNat L) (dlookup doc g))
      | none => false)
  rcases hx : lengthOfMV (dlookup doc nm) with _ | L
  · rw [hx] at hl
    cases hl
  · exact (Bool.not_not _).symm

theorem lengthCmp_complement (nm o₁ o₂ : String) (v : CVal) (doc : MongoDocV)
    (hl : (lengthOfMV (dlookup doc nm)).isSome = true)
    (hv : (jsNumOfCVal v).isSome = true)
    (hops : ∀ a b : Dec, jsCmpOp o₁ a b = !(jsCmpOp o₂ a b)) :
    evalJs (.lengthCmp nm o₁ v) doc = !(evalJs (.lengthCmp nm o₂ v) doc) := by
  show (match lengthOfMV (dlookup doc nm), jsNumOfCVal v with
      | some L, some r => jsCmpOp o₁ (Dec.ofNat L) r
      | _, _ => false)
    = !(match lengthOfMV (dlookup doc nm), jsNumOfCVal v with
      | some L, some r => jsCmpOp o₂ (Dec.ofNat L) r
      | _, _ => false)
  rcases hx : lengthOfMV (dlookup doc nm) with _ | L
  · rw [hx] at hl
    cases hl
  · rcases hy : jsNumOfCVal v with _ | r
    · rw [hy] at hv
      cases hv
    · exact hops _ _

theorem cop_make_mem (t : String) (op : COp) (h : COp.make t = .ok op) :
    t ∈ VALID_OPS := by
  unfold COp.make at h
  by_cases hc : VALID_OPS.contains t = true
  · exact List.mem_of_elem_eq_true hc
  · rw [if_neg hc] at h
    cases h

theorem cop_make_shapes (t : String) (op : COp) (h : COp.make t = .ok op) :
    op ∈ ([⟨">", none⟩, ⟨"<=", none⟩, ⟨"<", none⟩, ⟨">=", none⟩, ⟨"=", none⟩,
           ⟨"!=", none⟩, ⟨"exists", none⟩, ⟨"size", some .szEq⟩, ⟨"type", none⟩,
           ⟨"~", none⟩, ⟨"size", some .szGt⟩, ⟨"size", some .szLt⟩,
           ⟨"size", some .szVar⟩] : List COp) := by
  have hmem : t ∈ ([">", "<=", "<", ">=", "=", "!=", "exists", "size", "type", "~",
      "size>", "size<", "size$"] : List String) := cop_make_mem t op h
  fin_cases hmem <;>
    · injection h with h2
      subst h2
      decide

theorem constraint_make_parts (fld opTok : String) (v : PyVal) (c : Constraint)
    (h : Constraint.make fld opTok v = .ok c) :
    COp.make opTok = .ok c.op ∧
    ((∃ t, c.op.op = "type" ∧ c.value = .typ t)
     ∨ (∃ s, c.op.op = "~" ∧ c.value = .regex s)
     ∨ (c.op.isType = false ∧ c.op.isRegex = false ∧ c.value = CVal.ofPy v ∧
         (c.op.isInequality = true → pyIsNumber v = true))) := by
  unfold Constraint.make at h
  rcases hop : COp.make opTok with e | op <;> simp only [hop] at h
  · cases h
  · rcases hf : Field.make fld with e | f <;> simp only [hf] at h
    · cases h
    · by_cases h1 : (op.isInequality && !(pyIsNumber v)) = true
      · rw [if_pos h1] at h
        cases h
      · rw [if_neg h1] at h
        by_cases h2 : op.isType = true
        · rw [if_pos h2] at h
          cases v with
          | str s =>
            rcases hl : TYPE_MAPPING.lookup (pyLower s) with _ | t <;>
              simp only [hl] at h
            · cases h
            · injection h with h3
              subst h3
              exact ⟨rfl, .inl ⟨t, beq_string_eq h2, rfl⟩⟩
          | int n => cases h
          | float d => cases h
          | bool b => cases h
        · rw [if_neg h2] at h
          by_cases h3 : op.isRegex = true
          · rw [if_pos h3] at h
            by_cases h4 : pyIsNumber v = true
            · rw [if_pos h4] at h
              cases h
            · rw [if_neg h4] at h
              cases v with
              | str s =>
                injection h with h5
                subst h5
                exact ⟨rfl, .inr (.inl ⟨s, beq_string_eq h3, rfl⟩)⟩
              | int n =>
                injection h with h5
                subst h5
                exact ⟨rfl, .inr (.inl ⟨"", beq_string_eq h3, rfl⟩)⟩
              | float d =>
                injection h with h5
                subst h5
                exact ⟨rfl, .inr (.inl ⟨"", beq_string_eq h3, rfl⟩)⟩
              | bool b =>
                injection h with h5
                subst h5
                exact ⟨rfl, .inr (.inl ⟨"", beq_string_eq h3, rfl⟩)⟩
          · rw [if_neg h3] at h
            injection h with h5
            subst h5
            refine ⟨rfl, .inr (.inr ⟨Bool.eq_false_iff.mpr h2,
              Bool.eq_false_iff.mpr h3, rfl, ?_⟩)⟩
            intro hiq
            replace hiq : op.isInequality = true := hiq
            cases hp : pyIsNumber v
            · exfalso
              apply h1
              rw [hiq, hp]
              rfl
            · rfl

/-! ### Claim theorems -/

/-- C1: compiling `"abba > 12 and beebs <= 3 or coco type int"` yields exactly
the two-branch `$or` document whose first branch merges the two native
inequality fragments keyed by field and whose second branch is the scripted
`$where` type check. -/
theorem c1_compile_scenario :
    to_mongo (.qstr "abba > 12 and beebs <= 3 or coco type int") =
      .ok (.obj [("$or", .arr
        [.obj [("abba", .obj [("$gt", .leaf (.int 12))]),
               ("beebs", .obj [("$lte", .leaf (.int 3))])],
         .obj [("$where", .leaf (.str "typeof this.coco == \"number\""))]])]) := rfl

/-- C2 counterexample: for the constraint `x != true` the clause compiled with
`reverse=false` and the clause compiled with `reverse=true` carry the very
same expression `{x: true}`, and both match the document `{x: true}` — so the
two documents are not logically complementary (the boolean `$ne`
simplification applies the reversal to the value even though the operator was
already negated). -/
theorem c2_counterexample :
    Constraint.make "x" "!=" (.bool true) =
      .ok ⟨⟨"x", none⟩, ⟨"!=", none⟩, .bool true⟩
    ∧ MongoClause.create ⟨⟨"x", none⟩, ⟨"!=", none⟩, .bool true⟩ false false =
        .ok ⟨.main, .ndoc "x" (.plain (.bool true)), false⟩
    ∧ MongoClause.create ⟨⟨"x", none⟩, ⟨"!=", none⟩, .bool true⟩ true false =
        .ok ⟨.main, .ndoc "x" (.plain (.bool true)), true⟩
    ∧ clauseMatches ⟨.main, .ndoc "x" (.plain (.bool true)), false⟩
        [("x", .bool true)] = true
    ∧ clauseMatches ⟨.main, .ndoc "x" (.plain (.bool true)), true⟩
        [("x", .bool true)] = true :=
  ⟨rfl, rfl, rfl, rfl, rfl⟩

/-- C4 counterexample: compiling `"x size< 0"` fails with a plain
`ValueError`, not with the "bad expression" error kind — clause creation
happens outside the error-wrapping `try` block. -/
theorem c4_counterexample :
    to_mongo (.qstr "x size< 0") =
      .error (.valueError "value 0 is not allowed for size operator \"size\"") := rfl

/-- C4 amended: grammar mismatches and the operator/value validation
performed by `Constraint` surface as the "bad expression" error kind carrying
the offending raw sub-expression, but failures raised during clause creation
escape with their original class (`ValueError` for invalid size bounds,
`AttributeError` for a type check against a non-string value); in every case
`compile` fails as a whole, with no partial result. -/
theorem c4_amended_error_kinds :
    to_mongo (.qstr "a <>2") =
      .error (.badExpression "a <>2" "error parsing expression 'a <>2'")
    ∧ to_mongo (.qstr "a > 'q'") =
        .error (.badExpression "a > 'q'" "inequality with non-numeric value: q")
    ∧ to_mongo (.qstr "a type foo") =
        .error (.badExpression "a type foo"
          "value for type, foo, not in (number, int, integer, float, str, string, bool, boolean)")
    ∧ to_mongo (.qstr "x size< 0") =
        .error (.valueError "value 0 is not allowed for size operator \"size\"")
    ∧ to_mongo (.qstr "x size> -1") =
        .error (.valueError "negative value for size: -1")
    ∧ to_mongo (.qstr "x type 3") =
        .error (.attributeError "'int' object has no attribute 'lower'")
    ∧ ∀ qry : QueryInput, (∃ d, to_mongo qry = .ok d) ∨ (∃ e, to_mongo qry = .error e) := by
  refine ⟨rfl, rfl, rfl, rfl, rfl, rfl, ?_⟩
  intro qry
  rcases h : to_mongo qry with e | d
  · exact .inr ⟨e, rfl⟩
  · exact .inl ⟨d, rfl⟩

/-- C6: `compile("a = 1")`, `compile([["a = 1"]])` and `compile("(a = 1)")`
return the same document; any number of leading/trailing parenthesis
characters, balanced or not, is stripped and otherwise ignored, and wrapping
the single constraint in a singleton nested list changes nothing. -/
theorem c6_grouping_idempotence :
    to_mongo (.qstr "a = 1") = .ok (.obj [("a", .leaf (.int 1))])
    ∧ to_mongo (.qnested [["a = 1"]]) = .ok (.obj [("a", .leaf (.int 1))])
    ∧ to_mongo (.qstr "(a = 1)") = .ok (.obj [("a", .leaf (.int 1))])
    ∧ to_mongo (.qstr "((((a = 1)") = .ok (.obj [("a", .leaf (.int 1))])
    ∧ ∀ p q : Nat,
        to_mongo (.qstr (parenWrap p "a = 1" q)) = .ok (.obj [("a", .leaf (.int 1))]) := by
  refine ⟨rfl, rfl, rfl, rfl, ?_⟩
  intro p q
  rw [to_mongo_qstr_unfold _ (parenWrap_ne_empty p q), stringGroups_parenWrap]
  rfl

/-- C3 counterexample: `compile("items/price > 3")` keys the native fragment
by the bare prefix `"items"`, not by the dotted rendering `"items.price"`
of the full field name (which the compile path never uses). -/
theorem c3_counterexample :
    Field.make "items/price" = .ok ⟨"items", some "price"⟩
    ∧ Field.fullName ⟨"items", some "price"⟩ = "items.price"
    ∧ to_mongo (.qstr "items/price > 3") =
        .ok (.obj [("items", .obj [("$gt", .leaf (.int 3))])])
    ∧ hasTopKey (.obj [("items", .obj [("$gt", .leaf (.int 3))])]) "items.price" = false
    ∧ hasTopKey (.obj [("items", .obj [("$gt", .leaf (.int 3))])]) "items" = true :=
  ⟨rfl, rfl, rfl, rfl, rfl⟩

/-- C3 amended: every native fragment is keyed by `Field.name`, the bare
prefix before the pick separator; the subfield never reaches the compiled
output (the dotted `full_name` rendering is dead code). -/
theorem c3_amended_bare_prefix_keying :
    (∀ (c : Constraint) (rv em : Bool) (cl : MongoClause) (k : String) (rhs : NativeRhs),
       MongoClause.create c rv em = .ok cl → cl.expr = .ndoc k rhs →
       k = c.field.name)
    ∧ (∀ a b : String, (∀ ch ∈ a.data, ch ≠ '/') → (∀ ch ∈ b.data, ch ≠ '/') →
         Field.make (a ++ "/" ++ b) = .ok ⟨a, some b⟩) := by
  constructor
  · rintro ⟨f, o, v⟩ rv em cl k rhs hok hexpr
    simp only [MongoClause.create] at hok
    rcases hrev : (if rv then reverseOperator o else Except.ok o) with e | op <;>
      rw [hrev] at hok
    · cases hok
    · dsimp only at hok
      repeat' split at hok
      all_goals first
        | exact Except.noConfusion hok
        | (injection hok with h
           subst h
           first
             | exact CExpr.noConfusion hexpr
             | (replace hexpr : CExpr.ndoc _ _ = CExpr.ndoc k rhs := hexpr
                cases hexpr
                rfl))
  · intro a b ha hb
    exact field_make_slash a b ha hb

/-- C3 witness. -/
theorem c3_amended_bare_prefix_keying_witness :
    "items" = (⟨⟨"items", some "price"⟩, ⟨">", none⟩, .int 3⟩ : Constraint).field.name
    ∧ Field.make ("items" ++ "/" ++ "price") = .ok ⟨"items", some "price"⟩ :=
  ⟨c3_amended_bare_prefix_keying.1 ⟨⟨"items", some "price"⟩, ⟨">", none⟩, .int 3⟩
      false false ⟨.main, .ndoc "items" (.tagged "$gt" (.int 3)), false⟩
      "items" (.tagged "$gt" (.int 3)) rfl rfl,
   c3_amended_bare_prefix_keying.2 "items" "price" (by decide) (by decide)⟩

/-- C7: `"x size< 0"` fails (zero bound on the strict less-than size
sub-kind), `"x size 0"` succeeds with the native `$size` fragment, and within
the checked size-inequality path any negative bound and any non-integer bound
are rejected as well. -/
theorem c7_size_bounds :
    to_mongo (.qstr "x size< 0") =
      .error (.valueError "value 0 is not allowed for size operator \"size\"")
    ∧ to_mongo (.qstr "x size 0") = .ok (.obj [("x", .obj [("$size", .leaf (.int 0))])])
    ∧ (∀ n : Int, Constraint.make "x" "size<" (.int n) =
        .ok ⟨⟨"x", none⟩, ⟨"size", some .szLt⟩, .int n⟩)
    ∧ (∀ n : Int, n < 0 →
        MongoClause.create ⟨⟨"x", none⟩, ⟨"size", some .szLt⟩, .int n⟩ false false =
          .error (.valueError ("negative value for size: " ++ toString n)))
    ∧ (∀ n : Int, n < 0 →
        MongoClause.create ⟨⟨"x", none⟩, ⟨"size", some .szGt⟩, .int n⟩ false false =
          .error (.valueError ("negative value for size: " ++ toString n)))
    ∧ to_mongo (.qstr "x size> 1.5") =
        .error (.valueError "wrong type for size: 1.5") :=
  ⟨rfl, rfl, fun _ => rfl,
   fun n hn => create_size_ineq_neg ⟨"x", none⟩ .szLt (.inr rfl) n hn,
   fun n hn => create_size_ineq_neg ⟨"x", none⟩ .szGt (.inl rfl) n hn, rfl⟩

/-- C7 witness. -/
theorem c7_size_bounds_witness :
    MongoClause.create ⟨⟨"x", none⟩, ⟨"size", some .szGt⟩, .int (-1)⟩ false false =
      .error (.valueError ("negative value for size: " ++ toString (-1 : Int))) :=
  c7_size_bounds.2.2.2.2.1 (-1) (by decide)

/-- C8: literal coercion is attempted as integer, then float, then boolean
(case-insensitive), and only a token failing all three is kept as a (possibly
quoted) string: `"3"` parses as the integer 3, `"3.14"` as the exact decimal
3.14, and every casing of true/false as a boolean. -/
theorem c8_coercion_precedence :
    coerceValue "3" = .int 3
    ∧ coerceValue "3.14" = .float ⟨314, 2⟩
    ∧ (∀ b₁ b₂ b₃ b₄ : Bool, coerceValue (trueCased b₁ b₂ b₃ b₄) = .bool true)
    ∧ (∀ b₁ b₂ b₃ b₄ b₅ : Bool, coerceValue (falseCased b₁ b₂ b₃ b₄ b₅) = .bool false)
    ∧ (∀ s : String, pyParseInt s = none → pyParseFloat s = none →
        BOOL_WORDS.lookup (pyLower s) = none →
        coerceValue s = .str (if isQuotedLit s then stripQuotes s else s)) := by
  refine ⟨rfl, rfl, by decide, by decide, ?_⟩
  intro s h1 h2 h3
  unfold coerceValue
  rw [h1, h2, h3]
  by_cases hq : isQuotedLit s = true
  · simp [hq]
  · simp [hq]

/-- C8 witness. -/
theorem c8_coercion_precedence_witness :
    coerceValue "'hi'" = .str (if isQuotedLit "'hi'" then stripQuotes "'hi'" else "'hi'") :=
  c8_coercion_precedence.2.2.2.2 "'hi'" rfl rfl rfl

/-- C9: the per-constraint matcher only requires a prefix of the raw string
to match the grammar — whenever the pattern matches with some (possibly
nonempty) unconsumed remainder, `parse_expr` succeeds with the captured
groups, so `compile("a = 1 trailing junk")` succeeds and equals
`compile("a = 1")`. -/
theorem c9_prefix_match :
    (∀ (s f o v : String) (rest : List Char),
       reMatchR s.data = some (f, o, v, rest) →
       parse_expr s = .ok (f, o, coerceValue v))
    ∧ to_mongo (.qstr "a = 1 trailing junk") = .ok (.obj [("a", .leaf (.int 1))])
    ∧ to_mongo (.qstr "a = 1 trailing junk") = to_mongo (.qstr "a = 1") := by
  refine ⟨?_, rfl, rfl⟩
  intro s f o v rest h
  unfold parse_expr
  rw [h]

/-- C9 witness. -/
theorem c9_prefix_match_witness :
    parse_expr "a = 1 !" = .ok ("a", "=", coerceValue "1") :=
  c9_prefix_match.1 "a = 1 !" "a" "=" "1" ['!'] rfl

/-- C10: an `exists` constraint whose value is not a boolean fails clause
creation with an `AssertionError` (so `compile("x exists 1")` raises), and
every successfully compiled `exists` clause carries a boolean `$exists`
payload (the reversal is applied to the boolean, not to the operator). -/
theorem c10_exists_requires_bool :
    to_mongo (.qstr "x exists 1") = .error .assertionError
    ∧ (∀ (c : Constraint) (rv em : Bool), c.op.op = "exists" → c.value.isBool = false →
        MongoClause.create c rv em = .error .assertionError)
    ∧ (∀ (c : Constraint) (rv em : Bool) (cl : MongoClause),
        c.op.op = "exists" → MongoClause.create c rv em = .ok cl →
        ∃ b : Bool, c.value = .bool b ∧
          cl.expr = .ndoc c.field.name (.tagged "$exists" (.bool (if rv then !b else b)))) := by
  refine ⟨rfl, ?_, ?_⟩
  · rintro ⟨f, ⟨os, sc⟩, v⟩ rv em hop hv
    subst hop
    cases rv <;> cases em <;> cases v <;> first
      | rfl
      | exact absurd hv (by simp [CVal.isBool])
  · rintro ⟨f, ⟨os, sc⟩, v⟩ rv em cl hop hok
    subst hop
    cases rv <;> cases em <;> cases v <;> first
      | exact absurd hok (by exact fun h => Except.noConfusion h)
      | · injection hok with h
          subst h
          exact ⟨_, rfl, rfl⟩

/-- C10 witness. -/
theorem c10_exists_requires_bool_witness :
    MongoClause.create ⟨⟨"x", none⟩, ⟨"exists", none⟩, .int 1⟩ true true =
      .error .assertionError :=
  c10_exists_requires_bool.2.1 ⟨⟨"x", none⟩, ⟨"exists", none⟩, .int 1⟩ true true rfl rfl

/-- C5: a string without the `" or "` token or a flat list forms exactly one
AND-group; a string containing `" or "` forms at least two; every successful
compile from at most one group yields a document with no top-level `$or`
key; and every successful compile of a non-empty input with two or more
groups is exactly the `$or` wrapper listing one assembled document per
group, in input order. -/
theorem c5_disjunction_collapse :
    (∀ s : String, containsTok s " or " = false → (inputGroups (.qstr s)).length = 1)
    ∧ (∀ s : String, containsTok s " or " = true → 2 ≤ (inputGroups (.qstr s)).length)
    ∧ (∀ xs : List String, (inputGroups (.qflat xs)).length = 1)
    ∧ (∀ (qry : QueryInput) (d : MDoc), to_mongo qry = .ok d →
        (inputGroups qry).length ≤ 1 → hasTopKey d "$or" = false)
    ∧ (∀ (qry : QueryInput) (d : MDoc), to_mongo qry = .ok d →
        isEmptyInput qry = false → 2 ≤ (inputGroups qry).length →
        ∃ fs : List MDoc,
          exceptMapM compileGroup (inputGroups qry) = .ok fs
          ∧ fs.length = (inputGroups qry).length
          ∧ (∀ (i : Nat) (hi : i < (inputGroups qry).length), ∃ hb : i < fs.length,
              compileGroup ((inputGroups qry).get ⟨i, hi⟩) = .ok (fs.get ⟨i, hb⟩))
          ∧ d = .obj [("$or", .arr fs)]) := by
  refine ⟨stringGroups_single, stringGroups_multi, fun _ => rfl, ?_, ?_⟩
  · intro qry d h hle
    unfold to_mongo at h
    by_cases he : isEmptyInput qry = true
    · rw [if_pos he] at h
      injection h with h
      subst h
      rfl
    · rw [if_neg he] at h
      rcases hm : exceptMapM compileGroup (inputGroups qry) with e | fs <;>
        simp only [hm] at h
      · cases h
      · have hlen := exceptMapM_length _ _ _ hm
        have hgt : ¬ fs.length > 1 := by omega
        rw [if_neg hgt] at h
        injection h with h
        subst h
        cases fs with
        | nil => rfl
        | cons f rest =>
          cases rest with
          | nil =>
            obtain ⟨g, _, hcg⟩ := exceptMapM_mem _ _ _ hm f (List.mem_cons_self _ _)
            exact compileGroup_no_or g f hcg
          | cons f2 r2 =>
            exfalso
            rw [← hlen] at hle
            simp at hle
  · intro qry d h hne h2
    unfold to_mongo at h
    rw [if_neg (by simp [hne])] at h
    rcases hm : exceptMapM compileGroup (inputGroups qry) with e | fs <;>
      simp only [hm] at h
    · cases h
    · have hlen := exceptMapM_length _ _ _ hm
      rw [if_pos (by omega)] at h
      injection h with h
      exact ⟨fs, rfl, hlen, fun i hi => exceptMapM_get _ _ _ hm i hi, h.symm⟩

/-- C5 witness. -/
theorem c5_disjunction_collapse_witness :
    hasTopKey (MDoc.obj [("a", MDoc.leaf (CVal.int 1))]) "$or" = false
    ∧ ∃ fs : List MDoc,
        exceptMapM compileGroup (inputGroups (.qstr "a = 1 or b = 2")) = .ok fs
        ∧ fs.length = (inputGroups (.qstr "a = 1 or b = 2")).length
        ∧ (∀ (i : Nat) (hi : i < (inputGroups (.qstr "a = 1 or b = 2")).length),
            ∃ hb : i < fs.length,
              compileGroup ((inputGroups (.qstr "a = 1 or b = 2")).get ⟨i, hi⟩) =
                .ok (fs.get ⟨i, hb⟩))
        ∧ (MDoc.obj [("$or", .arr [.obj [("a", .leaf (.int 1))],
             .obj [("b", .leaf (.int 2))]])]) = .obj [("$or", .arr fs)] :=
  ⟨c5_disjunction_collapse.2.2.2.1 (.qstr "a = 1") (.obj [("a", .leaf (.int 1))])
      rfl (by decide),
   c5_disjunction_collapse.2.2.2.2 (.qstr "a = 1 or b = 2")
      (.obj [("$or", .arr [.obj [("a", .leaf (.int 1))],
        .obj [("b", .leaf (.int 2))]])]) rfl rfl (by decide)⟩

/-- C2 amended: for every constraint accepted by `Constraint` whose operator
is not `~` and not `exists`, and excluding the one broken combination `!=`
with a boolean value (where the boolean simplification reapplies the reverse
flag after the operator was already negated), the clause compiled with
`reverse=false` and the clause compiled with `reverse=true` match
complementarily on every document of the compared kind; requesting reversal
of a `~` constraint fails with `BadExpression("cannot reverse operator
'~'")`. -/
theorem c2_amended_reversal :
    (∀ (fld opTok : String) (v : PyVal) (c : Constraint) (cl₁ cl₂ : MongoClause),
       Constraint.make fld opTok v = .ok c →
       c.op.isRegex = false → c.op.isExists = false →
       (c.op.isNeq && c.value.isBool) = false →
       MongoClause.create c false false = .ok cl₁ →
       MongoClause.create c true false = .ok cl₂ →
       ∀ doc : MongoDocV, compatibleDoc c doc = true →
         clauseMatches cl₁ doc = !clauseMatches cl₂ doc)
    ∧ (∀ (fld : String) (v : PyVal) (c : Constraint),
        Constraint.make fld "~" v = .ok c →
        MongoClause.create c true false =
          .error (.badExpression "cannot reverse operator '~'" "")) := by
  constructor
  · intro fld opTok v c cl₁ cl₂ hmk hnr hnx hnb h1 h2 doc hdoc
    obtain ⟨hop, hval⟩ := constraint_make_parts fld opTok v c hmk
    have hshapes := cop_make_shapes opTok c.op hop
    rcases c with ⟨f, op, cv⟩
    replace hshapes : op ∈ ([⟨">", none⟩, ⟨"<=", none⟩, ⟨"<", none⟩, ⟨">=", none⟩,
        ⟨"=", none⟩, ⟨"!=", none⟩, ⟨"exists", none⟩, ⟨"size", some .szEq⟩,
        ⟨"type", none⟩, ⟨"~", none⟩, ⟨"size", some .szGt⟩, ⟨"size", some .szLt⟩,
        ⟨"size", some .szVar⟩] : List COp) := hshapes
    simp only [List.mem_cons, List.mem_nil_iff, or_false] at hshapes
    rcases hshapes with rfl | rfl | rfl | rfl | rfl | rfl | rfl | rfl | rfl | rfl |
      rfl | rfl | rfl
    · -- op is `>`
      rcases hval with ⟨t, hT, hv⟩ | ⟨s, hR, hv⟩ | ⟨_, _, hv, hnum⟩
      · simp at hT
      · simp at hR
      · replace hv : cv = CVal.ofPy v := hv
        subst hv
        cases v with
        | str s => exact Bool.noConfusion (hnum rfl)
        | bool b =>
          injection h1 with e1
          injection h2 with e2
          subst e1
          subst e2
          replace hdoc : (match dlookup doc f.name with
              | some (MVal.bool _) => true | _ => false) = true := hdoc
          rcases hdv : dlookup doc f.name with _ | mv <;> rw [hdv] at hdoc
          · cases hdoc
          · cases mv with
            | bool a =>
              show eqMatch (dlookup doc f.name) (CVal.bool b)
                  = !(eqMatch (dlookup doc f.name) (CVal.bool (!b)))
              rw [hdv]
              cases a <;> cases b <;> rfl
            | num q => cases hdoc
            | str s => cases hdoc
            | arr xs => cases hdoc
        | int n =>
          injection h1 with e1
          injection h2 with e2
          subst e1
          subst e2
          replace hdoc : (match dlookup doc f.name with
              | some (MVal.num _) => true | _ => false) = true := hdoc
          rcases hdv : dlookup doc f.name with _ | mv <;> rw [hdv] at hdoc
          · cases hdoc
          · cases mv with
            | num q =>
              show cmpMatch (dlookup doc f.name) (CVal.int n) (fun a b => Dec.bltN b a)
                  = !(cmpMatch (dlookup doc f.name) (CVal.int n) Dec.bleN)
              rw [hdv]
              exact dec_blt_not_ble _ q
            | bool a => cases hdoc
            | str s => cases hdoc
            | arr xs => cases hdoc
        | float p =>
          injection h1 with e1
          injection h2 with e2
          subst e1
          subst e2
          replace hdoc : (match dlookup doc f.name with
              | some (MVal.num _) => true | _ => false) = true := hdoc
          rcases hdv : dlookup doc f.name with _ | mv <;> rw [hdv] at hdoc
          · cases hdoc
          · cases mv with
            | num q =>
              show cmpMatch (dlookup doc f.name) (CVal.float p) (fun a b => Dec.bltN b a)
                  = !(cmpMatch (dlookup doc f.name) (CVal.float p) Dec.bleN)
              rw [hdv]
              exact dec_blt_not_ble _ q
            | bool a => cases hdoc
            | str s => cases hdoc
            | arr xs => cases hdoc
    · -- op is `<=`
      rcases hval with ⟨t, hT, hv⟩ | ⟨s, hR, hv⟩ | ⟨_, _, hv, hnum⟩
      · simp at hT
      · simp at hR
      · replace hv : cv = CVal.ofPy v := hv
        subst hv
        cases v with
        | str s => exact Bool.noConfusion (hnum rfl)
        | bool b =>
          injection h1 with e1
          injection h2 with e2
          subst e1
          subst e2
          replace hdoc : (match dlookup doc f.name with
              | some (MVal.bool _) => true | _ => false) = true := hdoc
          rcases hdv : dlookup doc f.name with _ | mv <;> rw [hdv] at hdoc
          · cases hdoc
          · cases mv with
            | bool a =>
              show eqMatch (dlookup doc f.name) (CVal.bool b)
                  = !(eqMatch (dlookup doc f.name) (CVal.bool (!b)))
              rw [hdv]
              cases a <;> cases b <;> rfl
            | num q => cases hdoc
            | str s => cases hdoc
            | arr xs => cases hdoc
        | int n =>
          injection h1 with e1
          injection h2 with e2
          subst e1
          subst e2
          replace hdoc : (match dlookup doc f.name with
              | some (MVal.num _) => true | _ => false) = true := hdoc
          rcases hdv : dlookup doc f.name with _ | mv <;> rw [hdv] at hdoc
          · cases hdoc
          · cases mv with
            | num q =>
              show cmpMatch (dlookup doc f.name) (CVal.int n) Dec.bleN
                  = !(cmpMatch (dlookup doc f.name) (CVal.int n) (fun a b => Dec.bltN b a))
              rw [hdv]
              exact dec_ble_not_blt q _
            | bool a => cases hdoc
            | str s => cases hdoc
            | arr xs => cases hdoc
        | float p =>
          injection h1 with e1
          injection h2 with e2
          subst e1
          subst e2
          replace hdoc : (match dlookup doc f.name with
              | some (MVal.num _) => true | _ => false) = true := hdoc
          rcases hdv : dlookup doc f.name with _ | mv <;> rw [hdv] at hdoc
          · cases hdoc
          · cases mv with
            | num q =>
              show cmpMatch (dlookup doc f.name) (CVal.float p) Dec.bleN
                  = !(cmpMatch (dlookup doc f.name) (CVal.float p) (fun a b => Dec.bltN b a))
              rw [hdv]
              exact dec_ble_not_blt q _
            | bool a => cases hdoc
            | str s => cases hdoc
            | arr xs => cases hdoc
    · -- op is `<`
      rcases hval with ⟨t, hT, hv⟩ | ⟨s, hR, hv⟩ | ⟨_, _, hv, hnum⟩
      · simp at hT
      · simp at hR
      · replace hv : cv = CVal.ofPy v := hv
        subst hv
        cases v with
        | str s => exact Bool.noConfusion (hnum rfl)
        | bool b =>
          injection h1 with e1
          injection h2 with e2
          subst e1
          subst e2
          replace hdoc : (match dlookup doc f.name with
              | some (MVal.bool _) => true | _ => false) = true := hdoc
          rcases hdv : dlookup doc f.name with _ | mv <;> rw [hdv] at hdoc
          · cases hdoc
          · cases mv with
            | bool a =>
              show eqMatch (dlookup doc f.name) (CVal.bool b)
                  = !(eqMatch (dlookup doc f.name) (CVal.bool (!b)))
              rw [hdv]
              cases a <;> cases b <;> rfl
            | num q => cases hdoc
            | str s => cases hdoc
            | arr xs => cases hdoc
        | int n =>
          injection h1 with e1
          injection h2 with e2
          subst e1
          subst e2
          replace hdoc : (match dlookup doc f.name with
              | some (MVal.num _) => true | _ => false) = true := hdoc
          rcases hdv : dlookup doc f.name with _ | mv <;> rw [hdv] at hdoc
          · cases hdoc
          · cases mv with
            | num q =>
              show cmpMatch (dlookup doc f.name) (CVal.int n) Dec.bltN
                  = !(cmpMatch (dlookup doc f.name) (CVal.int n) (fun a b => Dec.bleN b a))
              rw [hdv]
              exact dec_blt_not_ble q _
            | bool a => cases hdoc
            | str s => cases hdoc
            | arr xs => cases hdoc
        | float p =>
          injection h1 with e1
          injection h2 with e2
          subst e1
          subst e2
          replace hdoc : (match dlookup doc f.name with
              | some (MVal.num _) => true | _ => false) = true := hdoc
          rcases hdv : dlookup doc f.name with _ | mv <;> rw [hdv] at hdoc
          · cases hdoc
          · cases mv with
            | num q =>
              show cmpMatch (dlookup doc f.name) (CVal.float p) Dec.bltN
                  = !(cmpMatch (dlookup doc f.name) (CVal.float p) (fun a b => Dec.bleN b a))
              rw [hdv]
              exact dec_blt_not_ble q _
            | bool a => cases hdoc
            | str s => cases hdoc
            | arr xs => cases hdoc
    · -- op is `>=`
      rcases hval with ⟨t, hT, hv⟩ | ⟨s, hR, hv⟩ | ⟨_, _, hv, hnum⟩
      · simp at hT
      · simp at hR
      · replace hv : cv = CVal.ofPy v := hv
        subst hv
        cases v with
        | str s => exact Bool.noConfusion (hnum rfl)
        | bool b =>
          injection h1 with e1
          injection h2 with e2
          subst e1
          subst e2
          replace hdoc : (match dlookup doc f.name with
              | some (MVal.bool _) => true | _ => false) = true := hdoc
          rcases hdv : dlookup doc f.name with _ | mv <;> rw [hdv] at hdoc
          · cases hdoc
          · cases mv with
            | bool a =>
              show eqMatch (dlookup doc f.name) (CVal.bool b)
                  = !(eqMatch (dlookup doc f.name) (CVal.bool (!b)))
              rw [hdv]
              cases a <;> cases b <;> rfl
            | num q => cases hdoc
            | str s => cases hdoc
            | arr xs => cases hdoc
        | int n =>
          injection h1 with e1
          injection h2 with e2
          subst e1
          subst e2
          replace hdoc : (match dlookup doc f.name with
              | some (MVal.num _) => true | _ => false) = true := hdoc
          rcases hdv : dlookup doc f.name with _ | mv <;> rw [hdv] at hdoc
          · cases hdoc
          · cases mv with
            | num q =>
              show cmpMatch (dlookup doc f.name) (CVal.int n) (fun a b => Dec.bleN b a)
                  = !(cmpMatch (dlookup doc f.name) (CVal.int n) Dec.bltN)
              rw [hdv]
              exact dec_ble_not_blt _ q
            | bool a => cases hdoc
            | str s => cases hdoc
            | arr xs => cases hdoc
        | float p =>
          injection h1 with e1
          injection h2 with e2
          subst e1
          subst e2
          replace hdoc : (match dlookup doc f.name with
              | some (MVal.num _) => true | _ => false) = true := hdoc
          rcases hdv : dlookup doc f.name with _ | mv <;> rw [hdv] at hdoc
          · cases hdoc
          · cases mv with
            | num q =>
              show cmpMatch (dlookup doc f.name) (CVal.float p) (fun a b => Dec.bleN b a)
                  = !(cmpMatch (dlookup doc f.name) (CVal.float p) Dec.bltN)
              rw [hdv]
              exact dec_ble_not_blt _ q
            | bool a => cases hdoc
            | str s => cases hdoc
            | arr xs => cases hdoc
    · -- op is `=`
      rcases hval with ⟨t, hT, hv⟩ | ⟨s, hR, hv⟩ | ⟨_, _, hv, hnum⟩
      · simp at hT
      · simp at hR
      · replace hv : cv = CVal.ofPy v := hv
        subst hv
        cases v with
        | str s =>
          injection h1 with e1
          injection h2 with e2
          subst e1
          subst e2
          exact (Bool.not_not _).symm
        | int n =>
          injection h1 with e1
          injection h2 with e2
          subst e1
          subst e2
          exact (Bool.not_not _).symm
        | float p =>
          injection h1 with e1
          injection h2 with e2
          subst e1
          subst e2
          exact (Bool.not_not _).symm
        | bool b =>
          injection h1 with e1
          injection h2 with e2
          subst e1
          subst e2
          replace hdoc : (match dlookup doc f.name with
              | some (MVal.bool _) => true | _ => false) = true := hdoc
          rcases hdv : dlookup doc f.name with _ | mv <;> rw [hdv] at hdoc
          · cases hdoc
          · cases mv with
            | bool a =>
              show eqMatch (dlookup doc f.name) (CVal.bool b)
                  = !(eqMatch (dlookup doc f.name) (CVal.bool (!b)))
              rw [hdv]
              cases a <;> cases b <;> rfl
            | num q => cases hdoc
            | str s => cases hdoc
            | arr xs => cases hdoc
    · -- op is `!=`
      rcases hval with ⟨t, hT, hv⟩ | ⟨s, hR, hv⟩ | ⟨_, _, hv, hnum⟩
      · simp at hT
      · simp at hR
      · replace hv : cv = CVal.ofPy v := hv
        subst hv
        cases v with
        | bool b => exact Bool.noConfusion hnb
        | str s =>
          injection h1 with e1
          injection h2 with e2
          subst e1
          subst e2
          rfl
        | int n =>
          injection h1 with e1
          injection h2 with e2
          subst e1
          subst e2
          rfl
        | float p =>
          injection h1 with e1
          injection h2 with e2
          subst e1
          subst e2
          rfl
    · -- op is `exists`
      exact Bool.noConfusion hnx
    · -- op is `size` (exact)
      rcases hval with ⟨t, hT, hv⟩ | ⟨s, hR, hv⟩ | ⟨_, _, hv, hnum⟩
      · simp at hT
      · simp at hR
      · replace hv : cv = CVal.ofPy v := hv
        subst hv
        cases v with
        | str s => exact Except.noConfusion h2
        | float p => exact Except.noConfusion h2
        | bool b => exact Bool.noConfusion hdoc
        | int n =>
          replace h2 : (match (if n < 0 then
                Except.error (PyErr.valueError ("negative value for size: "
                  ++ pyFormatCVal (CVal.ofPy (PyVal.int n))))
              else Except.ok ()) with
            | Except.error e => (Except.error e : Except PyErr MongoClause)
            | Except.ok _ => Except.ok ⟨Loc.whereLoc,
                CExpr.js (JsCond.lengthCmp f.name "!=" (CVal.ofPy (PyVal.int n))),
                true⟩) = Except.ok cl₂ := h2
          by_cases hn : n < 0
          · rw [if_pos hn] at h2
            exact Except.noConfusion h2
          · rw [if_neg hn] at h2
            injection h1 with e1
            injection h2 with e2
            subst e1
            subst e2
            replace hdoc : (match dlookup doc f.name with
                | some (MVal.arr _) => true | _ => false) = true := hdoc
            rcases hdv : dlookup doc f.name with _ | mv <;> rw [hdv] at hdoc
            · cases hdoc
            · cases mv with
              | arr xs =>
                show (match dlookup doc f.name, intOfCVal (CVal.int n) with
                    | some (MVal.arr xs), some k => ((xs.length : Int) == k)
                    | _, _ => false)
                  = !(match lengthOfMV (dlookup doc f.name), jsNumOfCVal (CVal.int n) with
                    | some L, some r => jsCmpOp "!=" (Dec.ofNat L) r
                    | _, _ => false)
                rw [hdv]
                show ((xs.length : Int) == n)
                    = !(!(Dec.beqN (Dec.ofNat xs.length) (Dec.ofInt n)))
                rw [Bool.not_not]
                show ((xs.length : Int) == n)
                    = ((xs.length : Int) * pow10 0 == n * pow10 0)
                rw [show pow10 0 = 1 from rfl, Int.mul_one, Int.mul_one]
              | num q => cases hdoc
              | bool a => cases hdoc
              | str s => cases hdoc
    · -- op is `type`
      rcases hval with ⟨t, hT, hv⟩ | ⟨s, hR, hv⟩ | ⟨hT2, _, hv, _⟩
      · replace hv : cv = CVal.typ t := hv
        subst hv
        injection h1 with e1
        injection h2 with e2
        subst e1
        subst e2
        exact typeof_complement f.name (JS_TYPES t) doc
      · simp at hR
      · exact Bool.noConfusion hT2
    · -- op is `~`
      exact Bool.noConfusion hnr
    · -- op is `size>`
      rcases hval with ⟨t, hT, hv⟩ | ⟨s, hR, hv⟩ | ⟨_, _, hv, hnum⟩
      · simp at hT
      · simp at hR
      · replace hv : cv = CVal.ofPy v := hv
        subst hv
        cases v with
        | str s => exact Except.noConfusion h1
        | float p => exact Except.noConfusion h1
        | bool b =>
          cases b <;>
            · injection h1 with e1
              injection h2 with e2
              subst e1
              subst e2
              replace hdoc : (lengthOfMV (dlookup doc f.name)).isSome = true := hdoc
              exact lengthCmp_complement f.name ">" "<=" _ doc hdoc rfl
                (fun a b => dec_blt_not_ble b a)
        | int n =>
          replace h1 : (match (if n < 0 then
                Except.error (PyErr.valueError ("negative value for size: "
                  ++ pyFormatCVal (CVal.ofPy (PyVal.int n))))
              else Except.ok ()) with
            | Except.error e => (Except.error e : Except PyErr MongoClause)
            | Except.ok _ => Except.ok ⟨Loc.whereLoc,
                CExpr.js (JsCond.lengthCmp f.name ">" (CVal.ofPy (PyVal.int n))),
                false⟩) = Except.ok cl₁ := h1
          replace h2 : (match (if n < 0 then
                Except.error (PyErr.valueError ("negative value for size: "
                  ++ pyFormatCVal (CVal.ofPy (PyVal.int n))))
              else Except.ok ()) with
            | Except.error e => (Except.error e : Except PyErr MongoClause)
            | Except.ok _ => Except.ok ⟨Loc.whereLoc,
                CExpr.js (JsCond.lengthCmp f.name "<=" (CVal.ofPy (PyVal.int n))),
                true⟩) = Except.ok cl₂ := h2
          by_cases hn : n < 0
          · rw [if_pos hn] at h1
            exact Except.noConfusion h1
          · rw [if_neg hn] at h1
            rw [if_neg hn] at h2
            injection h1 with e1
            injection h2 with e2
            subst e1
            subst e2
            replace hdoc : (lengthOfMV (dlookup doc f.name)).isSome = true := hdoc
            exact lengthCmp_complement f.name ">" "<=" _ doc hdoc rfl
              (fun a b => dec_blt_not_ble b a)
    · -- op is `size<`
      rcases hval with ⟨t, hT, hv⟩ | ⟨s, hR, hv⟩ | ⟨_, _, hv, hnum⟩
      · simp at hT
      · simp at hR
      · replace hv : cv = CVal.ofPy v := hv
        subst hv
        cases v with
        | str s => exact Except.noConfusion h1
        | float p => exact Except.noConfusion h1
        | bool b =>
          cases b with
          | false => exact Except.noConfusion h1
          | true =>
            injection h1 with e1
            injection h2 with e2
            subst e1
            subst e2
            replace hdoc : (lengthOfMV (dlookup doc f.name)).isSome = true := hdoc
            exact lengthCmp_complement f.name "<" ">=" _ doc hdoc rfl
              (fun a b => dec_blt_not_ble a b)
        | int n =>
          replace h1 : (match (if n < 0 then
                Except.error (PyErr.valueError ("negative value for size: "
                  ++ pyFormatCVal (CVal.ofPy (PyVal.int n))))
              else if (n == 0) = true then
                Except.error (PyErr.valueError
                  "value 0 is not allowed for size operator \"size\"")
              else Except.ok ()) with
            | Except.error e => (Except.error e : Except PyErr MongoClause)
            | Except.ok _ => Except.ok ⟨Loc.whereLoc,
                CExpr.js (JsCond.lengthCmp f.name "<" (CVal.ofPy (PyVal.int n))),
                false⟩) = Except.ok cl₁ := h1
          replace h2 : (match (if n < 0 then
                Except.error (PyErr.valueError ("negative value for size: "
                  ++ pyFormatCVal (CVal.ofPy (PyVal.int n))))
              else if (n == 0) = true then
                Except.error (PyErr.valueError
                  "value 0 is not allowed for size operator \"size\"")
              else Except.ok ()) with
            | Except.error e => (Except.error e : Except PyErr MongoClause)
            | Except.ok _ => Except.ok ⟨Loc.whereLoc,
                CExpr.js (JsCond.lengthCmp f.name ">=" (CVal.ofPy (PyVal.int n))),
                true⟩) = Except.ok cl₂ := h2
          by_cases hn : n < 0
          · rw [if_pos hn] at h1
            exact Except.noConfusion h1
          · rw [if_neg hn] at h1
            rw [if_neg hn] at h2
            by_cases hz : (n == 0) = true
            · rw [if_pos hz] at h1
              exact Except.noConfusion h1
            · rw [if_neg hz] at h1
              rw [if_neg hz] at h2
              injection h1 with e1
              injection h2 with e2
              subst e1
              subst e2
              replace hdoc : (lengthOfMV (dlookup doc f.name)).isSome = true := hdoc
              exact lengthCmp_complement f.name "<" ">=" _ doc hdoc rfl
                (fun a b => dec_blt_not_ble a b)
    · -- op is `size$`
      rcases hval with ⟨t, hT, hv⟩ | ⟨s, hR, hv⟩ | ⟨_, _, hv, hnum⟩
      · simp at hT
      · simp at hR
      · replace hv : cv = CVal.ofPy v := hv
        subst hv
        injection h1 with e1
        injection h2 with e2
        subst e1
        subst e2
        replace hdoc : (lengthOfMV (dlookup doc f.name)).isSome = true := hdoc
        exact lengthVar_complement f.name (pyFormatCVal (CVal.ofPy v)) doc hdoc
  · intro fld v c h
    obtain ⟨hop, _⟩ := constraint_make_parts fld "~" v c h
    rcases c with ⟨f, op, cv⟩
    injection hop with h2
    subst h2
    rfl

/-- C2 amended witness. -/
theorem c2_amended_reversal_witness :
    clauseMatches ⟨.main, .ndoc "x" (.tagged "$gt" (.int 1)), false⟩
        [("x", .num ⟨2, 0⟩)]
      = !clauseMatches ⟨.main, .ndoc "x" (.tagged "$lte" (.int 1)), true⟩
        [("x", .num ⟨2, 0⟩)]
    ∧ MongoClause.create ⟨⟨"x", none⟩, ⟨"~", none⟩, .regex "a"⟩ true false =
        .error (.badExpression "cannot reverse operator '~'" "") :=
  ⟨c2_amended_reversal.1 "x" ">" (.int 1) ⟨⟨"x", none⟩, ⟨">", none⟩, .int 1⟩
      ⟨.main, .ndoc "x" (.tagged "$gt" (.int 1)), false⟩
      ⟨.main, .ndoc "x" (.tagged "$lte" (.int 1)), true⟩
      rfl rfl rfl rfl rfl rfl [("x", .num ⟨2, 0⟩)] rfl,
   c2_amended_reversal.2 "x" (.str "a") ⟨⟨"x", none⟩, ⟨"~", none⟩, .regex "a"⟩ rfl⟩

end Smoqe
